import Mathlib

/-!
Verification development for the MCTS code-review engine of this repository
(examples/code-review).  The Python sources are shallowly embedded:

* `Node` mirrors `steps/shared/models.py:Node` (Python `int` visits become
  `Int`, Python `float` value becomes `ℚ` for the tree data; UCB1 scores,
  which involve `math.sqrt`/`math.log`, live in `ℝ`).
* A Python `dict` of nodes is embedded as an insertion-ordered association
  list `List (String × Node)`; `List.lookup` returns the first binding,
  matching unique-key dict access, and list order matches dict iteration
  order (insertion order, i.e. creation order).
* Each event-step handler becomes a pure function from its (already
  extracted) input record to the list of events it emits; `ctx.emit`
  failure is modelled by a `String → Bool` map saying which topics fail.
-/

namespace CodeReview

/-- Embedding of `Node` from `steps/shared/models.py`.  Optional fields keep
their pydantic defaults (`parent=None`, `children=[]`, `visits=0`,
`value=0.0`, `state=None`, `isTerminal=None`). -/
structure Node where
  id : String
  parent : Option String := none
  children : List String := []
  visits : Int := 0
  value : ℚ := 0
  state : Option String := none
  isTerminal : Option Bool := none
deriving Repr, DecidableEq

/-- Embedding of `SimulationResult` from `steps/shared/models.py`. -/
structure SimulationResult where
  nodeId : String
  value : ℚ
  explanation : String
deriving Repr, DecidableEq

/-- Keys of the node map, in insertion (creation) order. -/
def nodeKeys (nodes : List (String × Node)) : List String :=
  nodes.map Prod.fst

/-!
## Selector (`steps/code_review/select_node.step.py`, `select_node_ucb1`)

The recursive descent is embedded with explicit fuel: the Python guard
`depth >= max_depth` (with `depth` incremented by 1 on every recursive
call) is equivalent to the fuel `(max_depth - depth).toNat` reaching `0`,
so `select_node_ucb1` below wraps `selectGo` with that fuel.
-/

/-- Lines 74-83 of `select_node.step.py`: scan `children` in list order and
return the first child that is present in `nodes` and has `visits == 0`;
a `child_id not in nodes` is skipped (`continue`). -/
def firstUnvisitedChild (nodes : List (String × Node)) : List String → Option Node
  | [] => none
  | c :: cs =>
    match nodes.lookup c with
    | none => firstUnvisitedChild nodes cs
    | some n => if n.visits = 0 then some n else firstUnvisitedChild nodes cs

/-- Lines 103-116 of `select_node.step.py`: the UCB1 score of one child.
`child_visits` is clamped to at least 1 (`if child_visits < 1: child_visits = 1`),
the parent's visits to at least 1 (`max(visits, 1)`). -/
noncomputable def ucb1Score (explorationConstant : ℝ) (parentVisits : Int) (child : Node) : ℝ :=
  let childVisits : Int := if child.visits < 1 then 1 else child.visits
  ((child.value / (childVisits : ℚ) : ℚ) : ℝ) +
    explorationConstant * Real.sqrt (Real.log ((max parentVisits 1 : Int) : ℝ) / (childVisits : ℝ))

/-- Lines 86-120 of `select_node.step.py`: the scoring loop.  `best_score`
starts at `float('-inf')` and `best_node_id` at `''`, so the first present
child always replaces the accumulator (`score > -inf`); afterwards a child
wins only with `score > best_score` (strict, so ties keep the first child in
iteration order).  Children absent from `nodes` are skipped (`continue`).
The accumulator is `none` while no present child has been seen. -/
noncomputable def bestUCB1Child (nodes : List (String × Node)) (explorationConstant : ℝ)
    (parentVisits : Int) (children : List String) : Option String :=
  (children.foldl
    (fun acc c =>
      match nodes.lookup c with
      | none => acc
      | some child =>
        let score := ucb1Score explorationConstant parentVisits child
        match acc with
        | none => some (score, c)
        | some best => if best.1 < score then some (score, c) else acc)
    none).map Prod.snd

/-- Fuel-indexed body of `select_node_ucb1` (lines 53-128 of
`select_node.step.py`).  Fuel `0` corresponds to `depth >= max_depth`.
A missing `current_node_id` raises `ValueError` (lines 54-55), embedded as
`Except.error`; line 123's guard `if best_node_id and best_node_id in nodes`
is the `b ≠ "" ∧ (nodes.lookup b).isSome` test (Python truthiness of the
empty string plus dict membership). -/
noncomputable def selectGo (nodes : List (String × Node)) (rootId : String)
    (explorationConstant : ℝ) : ℕ → String → Except String Node
  | 0, currentId =>
    match nodes.lookup currentId with
    | none => .error ("Node with ID " ++ currentId ++ " not found in nodes dictionary")
    | some current => .ok current
  | fuel + 1, currentId =>
    match nodes.lookup currentId with
    | none => .error ("Node with ID " ++ currentId ++ " not found in nodes dictionary")
    | some current =>
      if current.children = [] then .ok current
      else
        match firstUnvisitedChild nodes current.children with
        | some child => .ok child
        | none =>
          match bestUCB1Child nodes explorationConstant current.visits current.children with
          | some b =>
            if b ≠ "" ∧ (nodes.lookup b).isSome then
              selectGo nodes rootId explorationConstant fuel b
            else .ok current
          | none => .ok current

/-- `select_node_ucb1(nodes, root_id, current_node_id, exploration_constant,
max_depth, depth)` from `select_node.step.py`. -/
noncomputable def select_node_ucb1 (nodes : List (String × Node)) (rootId currentId : String)
    (explorationConstant : ℝ) (maxDepth depth : Int) : Except String Node :=
  selectGo nodes rootId explorationConstant (maxDepth - depth).toNat currentId

lemma firstUnvisitedChild_append (nodes : List (String × Node))
    (pre post : List String) (c : String) (child : Node)
    (hpre : ∀ c' ∈ pre, nodes.lookup c' = none ∨ ∃ n', nodes.lookup c' = some n' ∧ n'.visits ≠ 0)
    (hc : nodes.lookup c = some child) (hchild : child.visits = 0) :
    firstUnvisitedChild nodes (pre ++ c :: post) = some child := by
  induction pre with
  | nil =>
    simp only [List.nil_append, firstUnvisitedChild, hc, hchild, if_pos]
  | cons p ps ih =>
    have hp := hpre p (by simp)
    have hrest : ∀ c' ∈ ps, nodes.lookup c' = none ∨
        ∃ n', nodes.lookup c' = some n' ∧ n'.visits ≠ 0 := by
      intro c' hc'
      exact hpre c' (by simp [hc'])
    rcases hp with hnone | ⟨n', hn', hv⟩
    · simpa [firstUnvisitedChild, hnone] using ih hrest
    · simpa [firstUnvisitedChild, hn', hv] using ih hrest

/-- C4: whatever node the UCB1 descent has reached (any `currentId` with
`depth < maxDepth`), if that node's children list splits as
`pre ++ c :: post` where every child in `pre` is either absent from the
node map or has nonzero visits, and `c` is present with `visits = 0`, then
`select_node_ucb1` returns `c`'s node immediately (it does not descend
further), for every exploration constant. -/
theorem select_returns_first_unvisited_child
    (nodes : List (String × Node)) (rootId currentId : String)
    (explorationConstant : ℝ) (maxDepth depth : Int) (current : Node)
    (hlook : nodes.lookup currentId = some current)
    (hdepth : depth < maxDepth)
    (pre post : List String) (c : String) (child : Node)
    (hsplit : current.children = pre ++ c :: post)
    (hpre : ∀ c' ∈ pre, nodes.lookup c' = none ∨ ∃ n', nodes.lookup c' = some n' ∧ n'.visits ≠ 0)
    (hc : nodes.lookup c = some child) (hchild : child.visits = 0) :
    select_node_ucb1 nodes rootId currentId explorationConstant maxDepth depth = .ok child := by
  have hfuel : ∃ k, (maxDepth - depth).toNat = k + 1 := by
    refine ⟨(maxDepth - depth).toNat - 1, ?_⟩
    omega
  obtain ⟨k, hk⟩ := hfuel
  have hne : current.children ≠ [] := by
    simp [hsplit]
  rw [select_node_ucb1, hk]
  simp [selectGo, hlook, hsplit,
    firstUnvisitedChild_append nodes pre post c child hpre hc hchild]

/-- Witness for C4 at a concrete tree: parent `p` with children `a`
(visits 0) and `b` (visits 5); the unvisited `a` is returned (here with
exploration constant `2.7`, exercising "regardless of explorationConstant"). -/
theorem select_returns_first_unvisited_child_witness :
    select_node_ucb1
      [("p", ⟨"p", none, ["a", "b"], 7, 3, none, none⟩),
       ("a", ⟨"a", some "p", [], 0, 0, none, none⟩),
       ("b", ⟨"b", some "p", [], 5, 2, none, none⟩)]
      "p" "p" 2.7 10 0 = .ok ⟨"a", some "p", [], 0, 0, none, none⟩ := by
  exact select_returns_first_unvisited_child
    [("p", ⟨"p", none, ["a", "b"], 7, 3, none, none⟩),
     ("a", ⟨"a", some "p", [], 0, 0, none, none⟩),
     ("b", ⟨"b", some "p", [], 5, 2, none, none⟩)]
    "p" "p" 2.7 10 0 ⟨"p", none, ["a", "b"], 7, 3, none, none⟩ (by decide) (by decide)
    [] ["b"] "a" ⟨"a", some "p", [], 0, 0, none, none⟩ rfl
    (by intro c' hc'; exact absurd hc' (List.not_mem_nil c'))
    (by decide) (by decide)

lemma firstUnvisitedChild_mem (nodes : List (String × Node)) :
    ∀ (cs : List String) (n : Node), firstUnvisitedChild nodes cs = some n →
      ∃ k, nodes.lookup k = some n := by
  intro cs
  induction cs with
  | nil => intro n h; simp [firstUnvisitedChild] at h
  | cons c cs ih =>
    intro n h
    cases hl : nodes.lookup c with
    | none => exact ih n (by simpa [firstUnvisitedChild, hl] using h)
    | some m =>
      by_cases hv : m.visits = 0
      · refine ⟨c, ?_⟩
        simp only [firstUnvisitedChild, hl, hv, if_pos] at h
        rw [hl, h]
      · exact ih n (by simpa [firstUnvisitedChild, hl, hv] using h)

lemma selectGo_leaf (nodes : List (String × Node)) (rootId : String) (ec : ℝ)
    (fuel : ℕ) (cur : String) (current : Node)
    (hl : nodes.lookup cur = some current) (hc : current.children = []) :
    selectGo nodes rootId ec fuel cur = .ok current := by
  cases fuel <;> simp [selectGo, hl, hc]

lemma selectGo_no_valid_children (nodes : List (String × Node)) (rootId : String) (ec : ℝ)
    (fuel : ℕ) (cur : String) (current : Node)
    (hl : nodes.lookup cur = some current)
    (hfc : firstUnvisitedChild nodes current.children = none)
    (hbc : bestUCB1Child nodes ec current.visits current.children = none) :
    selectGo nodes rootId ec fuel cur = .ok current := by
  cases fuel with
  | zero => simp [selectGo, hl]
  | succ k =>
    by_cases hch : current.children = []
    · simp [selectGo, hl, hch]
    · simp [selectGo, hl, hch, hfc, hbc]

lemma selectGo_ok_iff (nodes : List (String × Node)) (rootId : String) (ec : ℝ) :
    ∀ (fuel : ℕ) (cur : String),
      (∃ n, selectGo nodes rootId ec fuel cur = .ok n) ↔
        (nodes.lookup cur).isSome = true := by
  intro fuel
  induction fuel with
  | zero =>
    intro cur
    cases hl : nodes.lookup cur <;> simp [selectGo, hl]
  | succ k ih =>
    intro cur
    cases hl : nodes.lookup cur with
    | none => simp [selectGo, hl]
    | some current =>
      simp only [Option.isSome_some, iff_true]
      by_cases hch : current.children = []
      · exact ⟨current, by simp [selectGo, hl, hch]⟩
      · cases hfc : firstUnvisitedChild nodes current.children with
        | some child => exact ⟨child, by simp [selectGo, hl, hch, hfc]⟩
        | none =>
          cases hbc : bestUCB1Child nodes ec current.visits current.children with
          | none => exact ⟨current, by simp [selectGo, hl, hch, hfc, hbc]⟩
          | some b =>
            by_cases hb : b ≠ "" ∧ (nodes.lookup b).isSome = true
            · obtain ⟨n, hn⟩ := (ih b).mpr hb.2
              refine ⟨n, ?_⟩
              simp only [selectGo, hl]
              rw [if_neg hch]
              simp only [hfc, hbc]
              rw [if_pos hb]
              exact hn
            · refine ⟨current, ?_⟩
              simp only [selectGo, hl]
              rw [if_neg hch]
              simp only [hfc, hbc]
              rw [if_neg hb]

lemma selectGo_ok_mem (nodes : List (String × Node)) (rootId : String) (ec : ℝ) :
    ∀ (fuel : ℕ) (cur : String) (n : Node),
      selectGo nodes rootId ec fuel cur = .ok n → ∃ k, nodes.lookup k = some n := by
  intro fuel
  induction fuel with
  | zero =>
    intro cur n h
    cases hl : nodes.lookup cur with
    | none => simp [selectGo, hl] at h
    | some current =>
      refine ⟨cur, ?_⟩
      have hcn : current = n := by simpa [selectGo, hl] using h
      rw [hl, hcn]
  | succ k ih =>
    intro cur n h
    cases hl : nodes.lookup cur with
    | none => simp [selectGo, hl] at h
    | some current =>
      by_cases hch : current.children = []
      · refine ⟨cur, ?_⟩
        have hcn : current = n := by simpa [selectGo, hl, hch] using h
        rw [hl, hcn]
      · simp only [selectGo, hl] at h
        rw [if_neg hch] at h
        cases hfc : firstUnvisitedChild nodes current.children with
        | some child =>
          simp only [hfc] at h
          have hn : child = n := by simpa using h
          exact hn ▸ firstUnvisitedChild_mem nodes current.children child hfc
        | none =>
          simp only [hfc] at h
          cases hbc : bestUCB1Child nodes ec current.visits current.children with
          | none =>
            simp only [hbc] at h
            refine ⟨cur, ?_⟩
            have hcn : current = n := by simpa using h
            rw [hl, hcn]
          | some b =>
            simp only [hbc] at h
            by_cases hb : b ≠ "" ∧ (nodes.lookup b).isSome = true
            · rw [if_pos hb] at h
              exact ih b n h
            · rw [if_neg hb] at h
              refine ⟨cur, ?_⟩
              have hcn : current = n := by simpa using h
              rw [hl, hcn]

/-- C10: in `select_node.step.py`'s `select_node_ucb1`, (1) the descent
succeeds exactly when the start id is present in the node map (the only
raising input is an absent start id), (2) whatever node it returns is a
node stored in the map — a dangling child is never returned — and (3) a
child id absent from the map is silently skipped by both the
unvisited-child scan and the UCB1 scoring loop. -/
theorem select_dangling_children_safe :
    (∀ (nodes : List (String × Node)) (rootId currentId : String) (ec : ℝ)
        (maxDepth depth : Int),
        (∃ n, select_node_ucb1 nodes rootId currentId ec maxDepth depth = .ok n) ↔
          (nodes.lookup currentId).isSome = true) ∧
    (∀ (nodes : List (String × Node)) (rootId currentId : String) (ec : ℝ)
        (maxDepth depth : Int) (n : Node),
        select_node_ucb1 nodes rootId currentId ec maxDepth depth = .ok n →
          ∃ k, nodes.lookup k = some n) ∧
    (∀ (nodes : List (String × Node)) (d : String) (cs : List String),
        nodes.lookup d = none →
        firstUnvisitedChild nodes (d :: cs) = firstUnvisitedChild nodes cs ∧
        ∀ (ec : ℝ) (parentVisits : Int),
          bestUCB1Child nodes ec parentVisits (d :: cs) =
            bestUCB1Child nodes ec parentVisits cs) := by
  refine ⟨?_, ?_, ?_⟩
  · intro nodes rootId currentId ec maxDepth depth
    exact selectGo_ok_iff nodes rootId ec (maxDepth - depth).toNat currentId
  · intro nodes rootId currentId ec maxDepth depth n h
    exact selectGo_ok_mem nodes rootId ec (maxDepth - depth).toNat currentId n h
  · intro nodes d cs hd
    constructor
    · simp [firstUnvisitedChild, hd]
    · intro ec parentVisits
      simp [bestUCB1Child, hd]

/-- Witness for C10 at a concrete tree whose root has a dangling child id:
selection still succeeds, returns the root, and the returned node is in
the map. -/
theorem select_dangling_children_safe_witness :
    select_node_ucb1 [("r", ⟨"r", none, ["dang"], 3, 1, none, none⟩)] "r" "r" 1.4 5 0
        = .ok ⟨"r", none, ["dang"], 3, 1, none, none⟩ ∧
      ∃ k, List.lookup k [("r", (⟨"r", none, ["dang"], 3, 1, none, none⟩ : Node))]
        = some (⟨"r", none, ["dang"], 3, 1, none, none⟩ : Node) := by
  have hd : List.lookup "dang" [("r", (⟨"r", none, ["dang"], 3, 1, none, none⟩ : Node))]
      = none := by decide
  have hsel : select_node_ucb1 [("r", ⟨"r", none, ["dang"], 3, 1, none, none⟩)]
      "r" "r" 1.4 5 0 = .ok ⟨"r", none, ["dang"], 3, 1, none, none⟩ := by
    rw [select_node_ucb1]
    refine selectGo_no_valid_children _ _ _ _ _ _ (by decide) (by simp [firstUnvisitedChild, hd]) ?_
    simp [bestUCB1Child, hd]
  exact ⟨hsel, select_dangling_children_safe.2.1 _ "r" "r" 1.4 5 0 _ hsel⟩

/-- The concrete scenario tree of spec §8: `root(visits=10, value=5)` with
children `c1(visits=5, value=2.5)` and `c2(visits=4, value=3.0)`. -/
def scenarioNodes : List (String × Node) :=
  [("root", ⟨"root", none, ["c1", "c2"], 10, 5, none, none⟩),
   ("c1", ⟨"c1", some "root", [], 5, 5/2, none, none⟩),
   ("c2", ⟨"c2", some "root", [], 4, 3, none, none⟩)]

lemma scenario_score_lt :
    ucb1Score 1.4 10 ⟨"c1", some "root", [], 5, 5/2, none, none⟩ <
      ucb1Score 1.4 10 ⟨"c2", some "root", [], 4, 3, none, none⟩ := by
  have hnum : (0:ℝ) ≤ Real.sqrt (Real.log 10) := Real.sqrt_nonneg _
  have hden : (0:ℝ) < Real.sqrt 4 := Real.sqrt_pos.mpr (by norm_num)
  have hsle : Real.sqrt 4 ≤ Real.sqrt 5 := Real.sqrt_le_sqrt (by norm_num)
  have h45 : Real.sqrt (Real.log 10) / Real.sqrt 5 ≤ Real.sqrt (Real.log 10) / Real.sqrt 4 := by
    gcongr
  simp only [ucb1Score]
  norm_num
  linarith

lemma scenario_best :
    bestUCB1Child scenarioNodes 1.4 10 ["c1", "c2"] = some "c2" := by
  have h1 : scenarioNodes.lookup "c1" = some ⟨"c1", some "root", [], 5, 5/2, none, none⟩ := rfl
  have h2 : scenarioNodes.lookup "c2" = some ⟨"c2", some "root", [], 4, 3, none, none⟩ := rfl
  simp only [bestUCB1Child, List.foldl, h1, h2]
  rw [if_pos scenario_score_lt]
  rfl

/-- C5: on the spec §8 scenario tree (`root(visits=10,value=5)`,
`c1(visits=5,value=2.5)`, `c2(visits=4,value=3.0)`), with
`explorationConstant = 1.4` and any `maxDepth ≥ 1`, `select_node_ucb1`
started at the root returns `c2`: both children are visited, the UCB1
score `(value/visits) + 1.4·√(ln(max(parentVisits,1))/max(childVisits,1))`
of `c2` strictly exceeds `c1`'s, and the strict maximum wins. -/
theorem selector_scenario_ucb1_returns_c2 (maxDepth : Int) (h : 1 ≤ maxDepth) :
    select_node_ucb1 scenarioNodes "root" "root" 1.4 maxDepth 0 =
      .ok ⟨"c2", some "root", [], 4, 3, none, none⟩ := by
  obtain ⟨k, hk⟩ : ∃ k, (maxDepth - 0).toNat = k + 1 :=
    ⟨(maxDepth - 0).toNat - 1, by omega⟩
  have hroot : scenarioNodes.lookup "root"
      = some ⟨"root", none, ["c1", "c2"], 10, 5, none, none⟩ := rfl
  have hc2 : scenarioNodes.lookup "c2"
      = some ⟨"c2", some "root", [], 4, 3, none, none⟩ := rfl
  have hfc : firstUnvisitedChild scenarioNodes ["c1", "c2"] = none := rfl
  have hleaf : selectGo scenarioNodes "root" 1.4 k "c2"
      = .ok ⟨"c2", some "root", [], 4, 3, none, none⟩ :=
    selectGo_leaf scenarioNodes "root" 1.4 k "c2" _ hc2 rfl
  rw [select_node_ucb1, hk]
  simp [selectGo, hroot, hfc, scenario_best, hc2, hleaf]

/-- Witness for C5 at `maxDepth = 1`. -/
theorem selector_scenario_ucb1_returns_c2_witness :
    select_node_ucb1 scenarioNodes "root" "root" 1.4 1 0 =
      .ok ⟨"c2", some "root", [], 4, 3, none, none⟩ :=
  selector_scenario_ucb1_returns_c2 1 (by decide)

/-!
## Final-report best-node scan (`select_node.step.py` lines 250-295)
-/

/-- Line 274 of `select_node.step.py`:
`value_ratio = node_value / max(node_visits, 1)`. -/
def valueRatio (n : Node) : ℚ := n.value / ((max n.visits 1 : ℤ) : ℚ)

/-- Lines 252-285 of `select_node.step.py`: fold over `nodes.items()` in
insertion (creation) order, starting from `best_value_ratio = -1` and
`best_node_id = None`; nodes with `visits == 0` are skipped
(lines 262-264), and a node replaces the accumulator only when its ratio
is strictly larger (line 276), so ties keep the earlier node. -/
def bestNodeScanGo : List (String × Node) → ℚ → Option String → Option String
  | [], _, best => best
  | (i, n) :: rest, bestRatio, best =>
    if n.visits = 0 then bestNodeScanGo rest bestRatio best
    else if bestRatio < valueRatio n then bestNodeScanGo rest (valueRatio n) (some i)
    else bestNodeScanGo rest bestRatio best

def bestNodeScan (nodes : List (String × Node)) : Option String :=
  bestNodeScanGo nodes (-1) none

/-- Line 295 of `select_node.step.py`:
`final_node_id = best_node_id if best_node_id else current_node_id`
(Python truthiness: both `None` and `""` fall back to `current_node_id`). -/
def finalNodeId (nodes : List (String × Node)) (currentNodeId : String) : String :=
  match bestNodeScan nodes with
  | none => currentNodeId
  | some i => if i = "" then currentNodeId else i

/-- The spec's description of the scan (§4.6 of the spec): the first node,
in creation order, with `visits > 0` whose `value/visits` ratio is maximal
among all nodes with `visits > 0` — the maximizer with ties broken towards
the earliest-created node. -/
def bestNodeSpec (nodes : List (String × Node)) : Option String :=
  (nodes.find? (fun p => decide (0 < p.2.visits ∧
      ∀ q ∈ nodes, 0 < q.2.visits → valueRatio q.2 ≤ valueRatio p.2))).map Prod.fst

lemma list_find?_congr {α : Type} (p q : α → Bool) :
    ∀ (l : List α), (∀ a ∈ l, p a = q a) → l.find? p = l.find? q := by
  intro l
  induction l with
  | nil => intro _; rfl
  | cons a l ih =>
    intro h
    have ha := h a (by simp)
    cases hq : q a with
    | true =>
      rw [List.find?_cons_of_pos _ (ha.trans hq), List.find?_cons_of_pos _ hq]
    | false =>
      rw [List.find?_cons_of_neg _ (by simp [ha, hq]), List.find?_cons_of_neg _ (by simp [hq])]
      exact ih (fun a' h' => h a' (by simp [h']))

lemma bestNodeScanGo_const (r : ℚ) (b : Option String) :
    ∀ (l : List (String × Node)),
      (∀ p ∈ l, 0 ≤ p.2.visits) →
      (∀ p ∈ l, 0 < p.2.visits → valueRatio p.2 ≤ r) →
      bestNodeScanGo l r b = b := by
  intro l
  induction l with
  | nil => intro _ _; rfl
  | cons a l ih =>
    intro hvis hmax
    obtain ⟨i, n⟩ := a
    by_cases h0 : n.visits = 0
    · simp only [bestNodeScanGo, h0, if_pos]
      exact ih (fun p hp => hvis p (by simp [hp])) (fun p hp => hmax p (by simp [hp]))
    · have hpos : 0 < n.visits := lt_of_le_of_ne (hvis (i, n) (by simp)) (Ne.symm h0)
      have hle : valueRatio n ≤ r := hmax (i, n) (by simp) hpos
      simp only [bestNodeScanGo, h0, if_neg, not_lt.mpr hle, if_false]
      exact ih (fun p hp => hvis p (by simp [hp])) (fun p hp => hmax p (by simp [hp]))

lemma exists_first_max (l : List (String × Node)) :
    (∃ p ∈ l, 0 < p.2.visits) →
    ∃ m ∈ l, 0 < m.2.visits ∧
      ∀ q ∈ l, 0 < q.2.visits → valueRatio q.2 ≤ valueRatio m.2 := by
  induction l with
  | nil => rintro ⟨p, hp, -⟩; exact absurd hp (List.not_mem_nil p)
  | cons a l ih =>
    intro hex
    by_cases ha : 0 < a.2.visits
    · by_cases hl : ∃ p ∈ l, 0 < p.2.visits
      · obtain ⟨m, hm, hmv, hmax⟩ := ih hl
        by_cases hcmp : valueRatio a.2 < valueRatio m.2
        · refine ⟨m, by simp [hm], hmv, ?_⟩
          intro q hq hqv
          rcases List.mem_cons.mp hq with rfl | hq'
          · exact le_of_lt hcmp
          · exact hmax q hq' hqv
        · refine ⟨a, by simp, ha, ?_⟩
          intro q hq hqv
          rcases List.mem_cons.mp hq with rfl | hq'
          · exact le_refl _
          · exact (hmax q hq' hqv).trans (not_lt.mp hcmp)
      · refine ⟨a, by simp, ha, ?_⟩
        intro q hq hqv
        rcases List.mem_cons.mp hq with rfl | hq'
        · exact le_refl _
        · exact absurd ⟨q, hq', hqv⟩ hl
    · obtain ⟨p, hp, hpv⟩ := hex
      rcases List.mem_cons.mp hp with rfl | hp'
      · exact absurd hpv ha
      · obtain ⟨m, hm, hmv, hmax⟩ := ih ⟨p, hp', hpv⟩
        refine ⟨m, by simp [hm], hmv, ?_⟩
        intro q hq hqv
        rcases List.mem_cons.mp hq with rfl | hq'
        · exact absurd hqv ha
        · exact hmax q hq' hqv

/-- Characterization of the scan fold: it returns the first element beating
the running threshold `r` that is a global maximum among visited elements,
falling back to the accumulator `b`. -/
lemma bestNodeScanGo_spec :
    ∀ (l : List (String × Node)) (r : ℚ) (b : Option String),
      (∀ p ∈ l, 0 ≤ p.2.visits) →
      bestNodeScanGo l r b =
        (match l.find? (fun p => decide (0 < p.2.visits ∧ r < valueRatio p.2 ∧
            ∀ q ∈ l, 0 < q.2.visits → valueRatio q.2 ≤ valueRatio p.2)) with
        | some p => some p.1
        | none => b) := by
  intro l
  induction l with
  | nil => intro r b _; rfl
  | cons a l ih =>
    intro r b hvis
    obtain ⟨i, n⟩ := a
    have hvl : ∀ p ∈ l, 0 ≤ p.2.visits := fun p hp => hvis p (by simp [hp])
    by_cases h0 : n.visits = 0
    -- Case A: head skipped (visits == 0)
    · have hheadF : ¬(0 < (i, n).2.visits ∧ r < valueRatio (i, n).2 ∧
          ∀ q ∈ (i, n) :: l, 0 < q.2.visits → valueRatio q.2 ≤ valueRatio (i, n).2) := by
        simp [h0]
      rw [List.find?_cons_of_neg _ (by simpa using hheadF)]
      have hcongr : l.find? (fun p => decide (0 < p.2.visits ∧ r < valueRatio p.2 ∧
            ∀ q ∈ (i, n) :: l, 0 < q.2.visits → valueRatio q.2 ≤ valueRatio p.2)) =
          l.find? (fun p => decide (0 < p.2.visits ∧ r < valueRatio p.2 ∧
            ∀ q ∈ l, 0 < q.2.visits → valueRatio q.2 ≤ valueRatio p.2)) := by
        refine list_find?_congr _ _ l ?_
        intro p hp
        refine decide_eq_decide.mpr ?_
        constructor
        · rintro ⟨h1, h2, h3⟩
          exact ⟨h1, h2, fun q hq hqv => h3 q (by simp [hq]) hqv⟩
        · rintro ⟨h1, h2, h3⟩
          refine ⟨h1, h2, ?_⟩
          intro q hq hqv
          rcases List.mem_cons.mp hq with rfl | hq'
          · exact absurd hqv (by simp [h0])
          · exact h3 q hq' hqv
      rw [hcongr]
      simp only [bestNodeScanGo, h0, if_pos]
      exact ih r b hvl
    · have hpos : 0 < n.visits := lt_of_le_of_ne (hvis (i, n) (by simp)) (Ne.symm h0)
      by_cases hr : r < valueRatio n
      -- Case B: head beats the threshold
      · by_cases hmax : ∀ q ∈ (i, n) :: l, 0 < q.2.visits → valueRatio q.2 ≤ valueRatio n
        -- B1: head is a global maximum: it is found and survives the rest
        · rw [List.find?_cons_of_pos _ (by exact decide_eq_true ⟨hpos, hr, hmax⟩)]
          have hstep : bestNodeScanGo ((i, n) :: l) r b = bestNodeScanGo l (valueRatio n) (some i) := by
            simp [bestNodeScanGo, h0, hr]
          rw [hstep]
          exact bestNodeScanGo_const (valueRatio n) (some i) l hvl
            (fun p hp hpv => hmax p (by simp [hp]) hpv)
        -- B2: some later element strictly beats the head
        · have himpr : ∃ q ∈ l, 0 < q.2.visits ∧ valueRatio n < valueRatio q.2 := by
            by_contra hno
            push_neg at hno
            refine hmax ?_
            intro q hq hqv
            rcases List.mem_cons.mp hq with rfl | hq'
            · exact le_refl _
            · exact le_of_not_lt (fun hlt => absurd hlt (not_lt.mpr (by
                exact (hno q hq' hqv))))
          obtain ⟨qi, hqi, hqiv, hqilt⟩ := himpr
          have hheadF : ¬(0 < (i, n).2.visits ∧ r < valueRatio (i, n).2 ∧
              ∀ q ∈ (i, n) :: l, 0 < q.2.visits → valueRatio q.2 ≤ valueRatio (i, n).2) := by
            rintro ⟨-, -, h3⟩
            exact absurd (h3 qi (by simp [hqi]) hqiv) (not_le.mpr hqilt)
          rw [List.find?_cons_of_neg _ (by simpa using hheadF)]
          have hcongr : l.find? (fun p => decide (0 < p.2.visits ∧ r < valueRatio p.2 ∧
                ∀ q ∈ (i, n) :: l, 0 < q.2.visits → valueRatio q.2 ≤ valueRatio p.2)) =
              l.find? (fun p => decide (0 < p.2.visits ∧ valueRatio n < valueRatio p.2 ∧
                ∀ q ∈ l, 0 < q.2.visits → valueRatio q.2 ≤ valueRatio p.2)) := by
            refine list_find?_congr _ _ l ?_
            intro p hp
            refine decide_eq_decide.mpr ?_
            constructor
            · rintro ⟨h1, h2, h3⟩
              have hq' : valueRatio qi.2 ≤ valueRatio p.2 := h3 qi (by simp [hqi]) hqiv
              exact ⟨h1, lt_of_lt_of_le hqilt hq',
                fun q hq hqv => h3 q (by simp [hq]) hqv⟩
            · rintro ⟨h1, h2, h3⟩
              refine ⟨h1, lt_trans hr h2, ?_⟩
              intro q hq hqv
              rcases List.mem_cons.mp hq with rfl | hq'
              · exact le_of_lt h2
              · exact h3 q hq' hqv
          rw [hcongr]
          have hstep : bestNodeScanGo ((i, n) :: l) r b = bestNodeScanGo l (valueRatio n) (some i) := by
            simp [bestNodeScanGo, h0, hr]
          rw [hstep, ih (valueRatio n) (some i) hvl]
          -- the spec-side find? cannot fail: a first global max above the
          -- threshold exists among the improvers
          obtain ⟨m, hm, hmv, hmmax⟩ := exists_first_max l ⟨qi, hqi, hqiv⟩
          have hmgt : valueRatio n < valueRatio m.2 :=
            lt_of_lt_of_le hqilt (hmmax qi hqi hqiv)
          have hsome : (l.find? (fun p => decide (0 < p.2.visits ∧ valueRatio n < valueRatio p.2 ∧
              ∀ q ∈ l, 0 < q.2.visits → valueRatio q.2 ≤ valueRatio p.2))).isSome := by
            rw [List.find?_isSome]
            exact ⟨m, hm, decide_eq_true ⟨hmv, hmgt, hmmax⟩⟩
          obtain ⟨p', hp'⟩ := Option.isSome_iff_exists.mp hsome
          rw [hp']
      -- Case C: head does not beat the threshold
      · have hheadF : ¬(0 < (i, n).2.visits ∧ r < valueRatio (i, n).2 ∧
            ∀ q ∈ (i, n) :: l, 0 < q.2.visits → valueRatio q.2 ≤ valueRatio (i, n).2) := by
          rintro ⟨-, h2, -⟩
          exact absurd h2 hr
        rw [List.find?_cons_of_neg _ (by simpa using hheadF)]
        have hcongr : l.find? (fun p => decide (0 < p.2.visits ∧ r < valueRatio p.2 ∧
              ∀ q ∈ (i, n) :: l, 0 < q.2.visits → valueRatio q.2 ≤ valueRatio p.2)) =
            l.find? (fun p => decide (0 < p.2.visits ∧ r < valueRatio p.2 ∧
              ∀ q ∈ l, 0 < q.2.visits → valueRatio q.2 ≤ valueRatio p.2)) := by
          refine list_find?_congr _ _ l ?_
          intro p hp
          refine decide_eq_decide.mpr ?_
          constructor
          · rintro ⟨h1, h2, h3⟩
            exact ⟨h1, h2, fun q hq hqv => h3 q (by simp [hq]) hqv⟩
          · rintro ⟨h1, h2, h3⟩
            refine ⟨h1, h2, ?_⟩
            intro q hq hqv
            rcases List.mem_cons.mp hq with rfl | hq'
            · exact le_trans (not_lt.mp hr) (le_of_lt h2)
            · exact h3 q hq' hqv
        rw [hcongr]
        simp only [bestNodeScanGo, h0, if_neg, hr, if_false]
        exact ih r b hvl

/-- C8: on any tree satisfying the system invariants (non-negative visit
counts, non-negative cumulative values, non-empty node ids), the
final-report scan of `select_node.step.py` (lines 250-295) returns exactly
the first node, in creation order, maximizing `value/visits` among nodes
with `visits > 0` (`bestNodeSpec`), and falls back to `currentNodeId`
exactly when no node has `visits > 0`.  The scan is a pure function of the
tree, so running it twice over an unchanged tree yields the same id. -/
theorem final_report_scan_picks_best (nodes : List (String × Node)) (currentNodeId : String)
    (hvis : ∀ p ∈ nodes, 0 ≤ p.2.visits)
    (hval : ∀ p ∈ nodes, 0 ≤ p.2.value)
    (hid : ∀ p ∈ nodes, p.1 ≠ "") :
    finalNodeId nodes currentNodeId =
      (match bestNodeSpec nodes with
       | some i => i
       | none => currentNodeId) ∧
    ((bestNodeSpec nodes).isSome = true ↔ ∃ p ∈ nodes, 0 < p.2.visits) := by
  have hratio : ∀ p ∈ nodes, 0 < p.2.visits → (-1 : ℚ) < valueRatio p.2 := by
    intro p hp _
    have hden : (0 : ℚ) ≤ ((max p.2.visits 1 : ℤ) : ℚ) := by
      have h1 : (0 : ℤ) ≤ max p.2.visits 1 := le_trans (by norm_num) (le_max_right _ _)
      exact_mod_cast h1
    have h1 : (0 : ℚ) ≤ valueRatio p.2 := div_nonneg (hval p hp) hden
    linarith
  have hfind : nodes.find? (fun p => decide (0 < p.2.visits ∧ (-1 : ℚ) < valueRatio p.2 ∧
        ∀ q ∈ nodes, 0 < q.2.visits → valueRatio q.2 ≤ valueRatio p.2)) =
      nodes.find? (fun p => decide (0 < p.2.visits ∧
        ∀ q ∈ nodes, 0 < q.2.visits → valueRatio q.2 ≤ valueRatio p.2)) := by
    refine list_find?_congr _ _ nodes ?_
    intro p hp
    refine decide_eq_decide.mpr ?_
    constructor
    · rintro ⟨h1, -, h3⟩
      exact ⟨h1, h3⟩
    · rintro ⟨h1, h3⟩
      exact ⟨h1, hratio p hp h1, h3⟩
  have hscan : bestNodeScan nodes = bestNodeSpec nodes := by
    rw [bestNodeScan, bestNodeScanGo_spec nodes (-1) none hvis, hfind, bestNodeSpec]
    cases nodes.find? (fun p => decide (0 < p.2.visits ∧
        ∀ q ∈ nodes, 0 < q.2.visits → valueRatio q.2 ≤ valueRatio p.2)) <;> simp
  constructor
  · rw [finalNodeId, hscan]
    cases hbs : bestNodeSpec nodes with
    | none => rfl
    | some i =>
      have hex : ∃ p, nodes.find? (fun p => decide (0 < p.2.visits ∧
          ∀ q ∈ nodes, 0 < q.2.visits → valueRatio q.2 ≤ valueRatio p.2)) = some p ∧
          p.1 = i := by
        rw [bestNodeSpec] at hbs
        cases hf : nodes.find? (fun p => decide (0 < p.2.visits ∧
            ∀ q ∈ nodes, 0 < q.2.visits → valueRatio q.2 ≤ valueRatio p.2)) with
        | none => rw [hf] at hbs; simp at hbs
        | some p =>
          rw [hf] at hbs
          simp only [Option.map_some', Option.some.injEq] at hbs
          exact ⟨p, rfl, hbs⟩
      obtain ⟨p, hp, hpi⟩ := hex
      have hmem : p ∈ nodes := List.mem_of_find?_eq_some hp
      show (if i = "" then currentNodeId else i) = i
      rw [if_neg (hpi ▸ hid p hmem)]
  · constructor
    · intro h
      rw [bestNodeSpec] at h
      cases hf : nodes.find? (fun p => decide (0 < p.2.visits ∧
          ∀ q ∈ nodes, 0 < q.2.visits → valueRatio q.2 ≤ valueRatio p.2)) with
      | none => rw [hf] at h; simp at h
      | some p =>
        have hpred := List.find?_some hf
        have hmem := List.mem_of_find?_eq_some hf
        exact ⟨p, hmem, (of_decide_eq_true hpred).1⟩
    · rintro ⟨p, hp, hpv⟩
      obtain ⟨m, hm, hmv, hmmax⟩ := exists_first_max nodes ⟨p, hp, hpv⟩
      have hsome : (nodes.find? (fun p => decide (0 < p.2.visits ∧
          ∀ q ∈ nodes, 0 < q.2.visits → valueRatio q.2 ≤ valueRatio p.2))).isSome :=
        List.find?_isSome.mpr ⟨m, hm, decide_eq_true ⟨hmv, hmmax⟩⟩
      obtain ⟨p', hp'⟩ := Option.isSome_iff_exists.mp hsome
      rw [bestNodeSpec, hp']
      rfl

/-- Witness for C8: on the tree `r(visits=2,value=1)`, `x(visits=2,value=2)`,
`y(visits=1,value=1)` the scan picks `x` (ratio 1, earliest among the tied
maximizers `x` and `y`). -/
theorem final_report_scan_picks_best_witness :
    finalNodeId
        [("r", ⟨"r", none, ["x", "y"], 2, 1, none, none⟩),
         ("x", ⟨"x", some "r", [], 2, 2, none, none⟩),
         ("y", ⟨"y", some "r", [], 1, 1, none, none⟩)] "r" =
      (match bestNodeSpec
          [("r", ⟨"r", none, ["x", "y"], 2, 1, none, none⟩),
           ("x", ⟨"x", some "r", [], 2, 2, none, none⟩),
           ("y", ⟨"y", some "r", [], 1, 1, none, none⟩)] with
       | some i => i
       | none => "r") ∧
    ((bestNodeSpec
        [("r", ⟨"r", none, ["x", "y"], 2, 1, none, none⟩),
         ("x", ⟨"x", some "r", [], 2, 2, none, none⟩),
         ("y", ⟨"y", some "r", [], 1, 1, none, none⟩)]).isSome = true ↔
      ∃ p ∈ [("r", (⟨"r", none, ["x", "y"], 2, 1, none, none⟩ : Node)),
             ("x", ⟨"x", some "r", [], 2, 2, none, none⟩),
             ("y", ⟨"y", some "r", [], 1, 1, none, none⟩)], 0 < p.2.visits) :=
  final_report_scan_picks_best
    [("r", ⟨"r", none, ["x", "y"], 2, 1, none, none⟩),
     ("x", ⟨"x", some "r", [], 2, 2, none, none⟩),
     ("y", ⟨"y", some "r", [], 1, 1, none, none⟩)] "r"
    (by decide) (by decide) (by decide)

/-!
## Expander (`expand_node.step.py` lines 161-201) and the Controller seed
(`controller_step.py` lines 85-99)
-/

/-- The child node created at lines 180-188 of `expand_node.step.py`:
`{id, parent: selected, children: [], visits: 0, value: 0, state: step,
isTerminal: False}`. -/
def freshChildNode (selectedId newId step : String) : Node :=
  { id := newId, parent := some selectedId, children := [], visits := 0,
    value := 0, state := some step, isTerminal := some false }

/-- Line 194 of `expand_node.step.py`: append the fresh id to the selected
node's `children`; every other entry is untouched. -/
def updParentEntry (selectedId newId : String) (p : String × Node) : String × Node :=
  if p.1 = selectedId then (p.1, { p.2 with children := p.2.children ++ [newId] }) else p

/-- One iteration of the expansion loop (lines 176-201 of
`expand_node.step.py`): store the new child node under the fresh uuid
`newId`, and append `newId` to the parent's `children`. -/
def addChildNode (nodes : List (String × Node)) (selectedId newId step : String) :
    List (String × Node) :=
  nodes.map (updParentEntry selectedId newId) ++ [(newId, freshChildNode selectedId newId step)]

/-- The full `for step in expansion.steps` loop, the fresh
`uuid.uuid4()` values supplied as the first components of `pairs`
(`(new_node_id, step)`). -/
def expandChildren (nodes : List (String × Node)) (selectedId : String)
    (pairs : List (String × String)) : List (String × Node) :=
  pairs.foldl (fun ns p => addChildNode ns selectedId p.1 p.2) nodes

/-- The expand handler's effect on the tree (lines 90-152 of
`expand_node.step.py`): the tree only grows when the selected node exists,
has a non-empty `state` and the expansion returned at least one step;
otherwise the handler emits an error report and the tree is unchanged. -/
def applyExpand (nodes : List (String × Node)) (selectedId : String)
    (pairs : List (String × String)) : List (String × Node) :=
  match nodes.lookup selectedId with
  | none => nodes
  | some n =>
    match n.state with
    | none => nodes
    | some s => if s = "" ∨ pairs = [] then nodes else expandChildren nodes selectedId pairs

def applyExpandOp (nodes : List (String × Node)) (op : String × List (String × String)) :
    List (String × Node) :=
  applyExpand nodes op.1 op.2

/-- The root seeding of `controller_step.py` (lines 85-99): a single node
with `parent=None, children=[], visits=1, value=0, state=summary,
isTerminal=False`. -/
def seedNodes (rootId summary : String) : List (String × Node) :=
  [(rootId, { id := rootId, parent := none, children := [], visits := 1, value := 0,
              state := some summary, isTerminal := some false })]

/-- A measure strictly decreasing along parent links; its existence rules
out cycles in the parent relation. -/
def MeasureOk (m : String → ℕ) (nodes : List (String × Node)) : Prop :=
  ∀ p ∈ nodes, ∀ par, p.2.parent = some par → m par < m p.1

/-- The tree-integrity invariant of spec §8: unique ids, `id` field
consistent with the key, the root present with empty parent (and only the
root parent-less), children lists referencing existing nodes, every
non-root node's id contained exactly once in its parent's `children`, and
an acyclicity measure. -/
structure TreeInv (rootId : String) (nodes : List (String × Node)) : Prop where
  keysNodup : (nodes.map Prod.fst).Nodup
  rootMem : rootId ∈ nodes.map Prod.fst
  idField : ∀ p ∈ nodes, p.2.id = p.1
  rootParent : ∀ p ∈ nodes, (p.2.parent = none ↔ p.1 = rootId)
  childrenExist : ∀ p ∈ nodes, ∀ c ∈ p.2.children, c ∈ nodes.map Prod.fst
  childOnce : ∀ p ∈ nodes, ∀ par, p.2.parent = some par →
    ∃ q ∈ nodes, q.1 = par ∧ q.2.children.count p.1 = 1
  acyclic : ∃ m : String → ℕ, MeasureOk m nodes

/-- Freshness of the uuid supply along a sequence of expansions: at each
step the generated ids are pairwise distinct and absent from the tree so
far. -/
def FreshAlong : List (String × Node) → List (String × List (String × String)) → Prop
  | _, [] => True
  | nodes, op :: rest =>
      (∀ q ∈ op.2, q.1 ∉ nodes.map Prod.fst) ∧ (op.2.map Prod.fst).Nodup ∧
        FreshAlong (applyExpandOp nodes op) rest

lemma mem_of_lookup_eq_some :
    ∀ (l : List (String × Node)) (a : String) (b : Node), l.lookup a = some b → (a, b) ∈ l := by
  intro l
  induction l with
  | nil => intro a b h; simp at h
  | cons p l ih =>
    intro a b h
    obtain ⟨k, v⟩ := p
    rw [List.lookup_cons] at h
    by_cases hk : a = k
    · subst hk
      simp only [beq_self_eq_true] at h
      obtain rfl : v = b := by simpa using h
      simp
    · have : (a == k) = false := beq_false_of_ne hk
      rw [this] at h
      exact List.mem_cons_of_mem _ (ih a b h)

lemma lookup_eq_some_of_mem_nodup (l : List (String × Node)) (a : String) (b : Node)
    (hnd : (l.map Prod.fst).Nodup) (hmem : (a, b) ∈ l) : l.lookup a = some b := by
  induction l with
  | nil => simp at hmem
  | cons p l ih =>
    obtain ⟨k, v⟩ := p
    rcases List.mem_cons.mp hmem with heq | hmem'
    · cases heq
      rw [List.lookup_cons]
      simp
    · have hk : a ≠ k := by
        rintro rfl
        have hmm : a ∈ l.map Prod.fst := List.mem_map.mpr ⟨(a, b), hmem', rfl⟩
        exact (List.nodup_cons.mp (by simpa using hnd)).1 hmm
      rw [List.lookup_cons]
      have : (a == k) = false := beq_false_of_ne hk
      rw [this]
      exact ih (List.nodup_cons.mp (by simpa using hnd)).2 hmem'

lemma lookup_isSome_iff_mem_keys (l : List (String × Node)) (a : String) :
    (l.lookup a).isSome = true ↔ a ∈ l.map Prod.fst := by
  induction l with
  | nil => simp
  | cons p l ih =>
    obtain ⟨k, v⟩ := p
    rw [List.lookup_cons]
    by_cases hk : a = k
    · subst hk; simp
    · have : (a == k) = false := beq_false_of_ne hk
      rw [this]
      simp [hk, ih]

lemma fst_updParentEntry (selectedId newId : String) (p : String × Node) :
    (updParentEntry selectedId newId p).1 = p.1 := by
  rw [updParentEntry]; split <;> rfl

lemma parent_updParentEntry (selectedId newId : String) (p : String × Node) :
    (updParentEntry selectedId newId p).2.parent = p.2.parent := by
  rw [updParentEntry]; split <;> rfl

lemma id_updParentEntry (selectedId newId : String) (p : String × Node) :
    (updParentEntry selectedId newId p).2.id = p.2.id := by
  rw [updParentEntry]; split <;> rfl

lemma keys_addChildNode (nodes : List (String × Node)) (sel nid st : String) :
    (addChildNode nodes sel nid st).map Prod.fst = nodes.map Prod.fst ++ [nid] := by
  simp only [addChildNode, List.map_append, List.map_map, List.map_cons, List.map_nil]
  congr 1
  exact List.map_congr_left (fun p _ => fst_updParentEntry sel nid p)

lemma addChildNode_inv (rootId : String) (nodes : List (String × Node)) (sel nid st : String)
    (hinv : TreeInv rootId nodes)
    (hsel : sel ∈ nodes.map Prod.fst)
    (hfresh : nid ∉ nodes.map Prod.fst) :
    TreeInv rootId (addChildNode nodes sel nid st) := by
  have hmemchar : ∀ p, p ∈ addChildNode nodes sel nid st ↔
      ((∃ q ∈ nodes, p = updParentEntry sel nid q) ∨ p = (nid, freshChildNode sel nid st)) := by
    intro p
    simp only [addChildNode, List.mem_append, List.mem_map, List.mem_singleton]
    constructor
    · rintro (⟨q, hq, rfl⟩ | h)
      · exact Or.inl ⟨q, hq, rfl⟩
      · exact Or.inr h
    · rintro (⟨q, hq, rfl⟩ | h)
      · exact Or.inl ⟨q, hq, rfl⟩
      · exact Or.inr h
  refine ⟨?_, ?_, ?_, ?_, ?_, ?_, ?_⟩
  · -- keysNodup
    rw [keys_addChildNode]
    refine List.Nodup.append hinv.keysNodup (List.nodup_singleton nid) ?_
    intro a ha hb
    rw [List.mem_singleton] at hb
    exact hfresh (hb ▸ ha)
  · -- rootMem
    rw [keys_addChildNode]
    exact List.mem_append_left _ hinv.rootMem
  · -- idField
    intro p hp
    rcases (hmemchar p).mp hp with ⟨q, hq, rfl⟩ | rfl
    · rw [id_updParentEntry, fst_updParentEntry]
      exact hinv.idField q hq
    · rfl
  · -- rootParent
    intro p hp
    rcases (hmemchar p).mp hp with ⟨q, hq, rfl⟩ | rfl
    · rw [parent_updParentEntry, fst_updParentEntry]
      exact hinv.rootParent q hq
    · have hnr : nid ≠ rootId := fun h => hfresh (h ▸ hinv.rootMem)
      simp [freshChildNode, hnr]
  · -- childrenExist
    intro p hp c hc
    rw [keys_addChildNode]
    rcases (hmemchar p).mp hp with ⟨q, hq, rfl⟩ | rfl
    · rw [updParentEntry] at hc
      by_cases hqs : q.1 = sel
      · rw [if_pos hqs] at hc
        simp only [List.mem_append, List.mem_singleton] at hc
        rcases hc with hc | rfl
        · exact List.mem_append_left _ (hinv.childrenExist q hq c hc)
        · exact List.mem_append_right _ (by simp)
      · rw [if_neg hqs] at hc
        exact List.mem_append_left _ (hinv.childrenExist q hq c hc)
    · simp [freshChildNode] at hc
  · -- childOnce
    intro p hp par hpar
    rcases (hmemchar p).mp hp with ⟨q, hq, rfl⟩ | rfl
    · rw [parent_updParentEntry] at hpar
      obtain ⟨qq, hqq, hqq1, hcount⟩ := hinv.childOnce q hq par hpar
      refine ⟨updParentEntry sel nid qq, (hmemchar _).mpr (Or.inl ⟨qq, hqq, rfl⟩), ?_, ?_⟩
      · rw [fst_updParentEntry]; exact hqq1
      · rw [fst_updParentEntry, updParentEntry]
        have hq1 : q.1 ≠ nid := by
          intro h
          exact hfresh (h ▸ List.mem_map.mpr ⟨q, hq, rfl⟩)
        by_cases hqqs : qq.1 = sel
        · rw [if_pos hqqs]
          simp only [List.count_append]
          rw [hcount]
          simp [hq1]
        · rw [if_neg hqqs]
          exact hcount
    · -- the fresh node: its parent is `sel`, whose children got `nid` appended once
      have hpar' : par = sel := by
        have : some sel = some par := by simpa [freshChildNode] using hpar
        exact (Option.some.injEq _ _ ▸ this).symm
      obtain ⟨q, hq, hq1⟩ : ∃ q ∈ nodes, q.1 = sel := by
        obtain ⟨q, hq, hq1⟩ := List.mem_map.mp hsel
        exact ⟨q, hq, hq1⟩
      refine ⟨updParentEntry sel nid q, (hmemchar _).mpr (Or.inl ⟨q, hq, rfl⟩), ?_, ?_⟩
      · rw [fst_updParentEntry, hq1, hpar']
      · rw [updParentEntry, if_pos hq1]
        have hnotin : nid ∉ q.2.children := by
          intro h
          exact hfresh (hinv.childrenExist q hq nid h)
        simp only [List.count_append]
        rw [List.count_eq_zero.mpr hnotin]
        simp
  · -- acyclic
    obtain ⟨m, hm⟩ := hinv.acyclic
    refine ⟨fun a => if a = nid then m sel + 1 else m a, ?_⟩
    intro p hp par hpar
    have hselne : sel ≠ nid := fun h => hfresh (h ▸ hsel)
    rcases (hmemchar p).mp hp with ⟨q, hq, rfl⟩ | rfl
    · rw [parent_updParentEntry] at hpar
      have hq1 : q.1 ≠ nid := by
        intro h
        exact hfresh (h ▸ List.mem_map.mpr ⟨q, hq, rfl⟩)
      have hparne : par ≠ nid := by
        obtain ⟨qq, hqq, hqq1, -⟩ := hinv.childOnce q hq par hpar
        intro h
        exact hfresh (h ▸ hqq1 ▸ List.mem_map.mpr ⟨qq, hqq, rfl⟩)
      rw [fst_updParentEntry]
      simp only [hparne, hq1, if_neg, if_false]
      exact hm q hq par hpar
    · have hpar' : par = sel := by
        have : some sel = some par := by simpa [freshChildNode] using hpar
        exact (Option.some.injEq _ _ ▸ this).symm
      subst hpar'
      simp [hselne]

lemma expandChildren_inv (rootId sel : String) :
    ∀ (pairs : List (String × String)) (nodes : List (String × Node)),
      TreeInv rootId nodes → sel ∈ nodes.map Prod.fst →
      (∀ q ∈ pairs, q.1 ∉ nodes.map Prod.fst) → (pairs.map Prod.fst).Nodup →
      TreeInv rootId (expandChildren nodes sel pairs) := by
  intro pairs
  induction pairs with
  | nil => intro nodes hinv _ _ _; exact hinv
  | cons pr rest ih =>
    intro nodes hinv hsel hfr hnd
    obtain ⟨nid, st⟩ := pr
    have hfr0 : nid ∉ nodes.map Prod.fst := hfr (nid, st) (by simp)
    have hinv' := addChildNode_inv rootId nodes sel nid st hinv hsel hfr0
    have hkeys := keys_addChildNode nodes sel nid st
    refine ih (addChildNode nodes sel nid st) hinv' ?_ ?_ ?_
    · rw [hkeys]; exact List.mem_append_left _ hsel
    · intro q hq
      rw [hkeys]
      simp only [List.mem_append, List.mem_singleton]
      rintro (hmem | hq1)
      · exact hfr q (by simp [hq]) hmem
      · have : nid ∈ (rest.map Prod.fst) := List.mem_map.mpr ⟨q, hq, hq1⟩
        exact (List.nodup_cons.mp (by simpa using hnd)).1 this
    · exact (List.nodup_cons.mp (by simpa using hnd)).2

lemma applyExpand_inv (rootId : String) (nodes : List (String × Node))
    (sel : String) (pairs : List (String × String))
    (hinv : TreeInv rootId nodes)
    (hfr : ∀ q ∈ pairs, q.1 ∉ nodes.map Prod.fst) (hnd : (pairs.map Prod.fst).Nodup) :
    TreeInv rootId (applyExpand nodes sel pairs) := by
  rw [applyExpand]
  split
  · exact hinv
  · next n hl =>
    split
    · exact hinv
    · next s hs =>
      split
      · exact hinv
      · next hguard =>
        have hsel : sel ∈ nodes.map Prod.fst :=
          (lookup_isSome_iff_mem_keys nodes sel).mp (by rw [hl]; rfl)
        exact expandChildren_inv rootId sel pairs nodes hinv hsel hfr hnd

lemma foldl_applyExpandOp_inv (rootId : String) :
    ∀ (ops : List (String × List (String × String))) (nodes : List (String × Node)),
      TreeInv rootId nodes → FreshAlong nodes ops →
      TreeInv rootId (ops.foldl applyExpandOp nodes) := by
  intro ops
  induction ops with
  | nil => intro nodes hinv _; exact hinv
  | cons op rest ih =>
    intro nodes hinv hfa
    obtain ⟨hfr, hnd, hfa'⟩ := hfa
    exact ih (applyExpandOp nodes op) (applyExpand_inv rootId nodes op.1 op.2 hinv hfr hnd) hfa'

lemma seedNodes_inv (rootId summary : String) : TreeInv rootId (seedNodes rootId summary) := by
  refine ⟨?_, ?_, ?_, ?_, ?_, ?_, ⟨fun _ => 0, ?_⟩⟩
  · simp [seedNodes]
  · simp [seedNodes]
  · intro p hp
    simp only [seedNodes, List.mem_singleton] at hp
    subst hp; rfl
  · intro p hp
    simp only [seedNodes, List.mem_singleton] at hp
    subst hp; simp
  · intro p hp c hc
    simp only [seedNodes, List.mem_singleton] at hp
    subst hp; simp at hc
  · intro p hp par hpar
    simp only [seedNodes, List.mem_singleton] at hp
    subst hp; simp at hpar
  · intro p hp par hpar
    simp only [seedNodes, List.mem_singleton] at hp
    subst hp; simp at hpar

lemma lookup_addChildNode_mem (nodes : List (String × Node)) (sel nid st k : String) (n : Node)
    (hk : nodes.lookup k = some n) :
    (addChildNode nodes sel nid st).lookup k =
      some (if k = sel then { n with children := n.children ++ [nid] } else n) := by
  induction nodes with
  | nil => simp at hk
  | cons p rest ih =>
    obtain ⟨k0, v⟩ := p
    rw [List.lookup_cons] at hk
    have hhead : addChildNode ((k0, v) :: rest) sel nid st =
        updParentEntry sel nid (k0, v) :: addChildNode rest sel nid st := by
      simp [addChildNode]
    by_cases hkk : k = k0
    · subst hkk
      simp only [beq_self_eq_true] at hk
      obtain rfl : v = n := by simpa using hk
      rw [hhead, updParentEntry]
      by_cases hks : k = sel
      · rw [if_pos hks, List.lookup_cons]
        simp [hks]
      · rw [if_neg hks, List.lookup_cons]
        simp [hks]
    · have hbeq : (k == k0) = false := beq_false_of_ne hkk
      rw [hbeq] at hk
      rw [hhead, List.lookup_cons]
      have : (k == (updParentEntry sel nid (k0, v)).1) = false := by
        rw [fst_updParentEntry]
        exact beq_false_of_ne hkk
      rw [this]
      exact ih hk

lemma lookup_addChildNode_new (nodes : List (String × Node)) (sel nid st : String)
    (hfresh : nid ∉ nodes.map Prod.fst) :
    (addChildNode nodes sel nid st).lookup nid = some (freshChildNode sel nid st) := by
  induction nodes with
  | nil =>
    rw [addChildNode]
    simp [List.lookup_cons]
  | cons p rest ih =>
    obtain ⟨k0, v⟩ := p
    have hhead : addChildNode ((k0, v) :: rest) sel nid st =
        updParentEntry sel nid (k0, v) :: addChildNode rest sel nid st := by
      simp [addChildNode]
    have hne : nid ≠ k0 := by
      intro h
      exact hfresh (by simp [h])
    rw [hhead, List.lookup_cons]
    have : (nid == (updParentEntry sel nid (k0, v)).1) = false := by
      rw [fst_updParentEntry]
      exact beq_false_of_ne hne
    rw [this]
    exact ih (fun h => hfresh (by simp [h]))

lemma lookup_expandChildren_preserved (sel : String) :
    ∀ (pairs : List (String × String)) (nodes : List (String × Node)) (k : String) (n : Node),
      k ≠ sel → (∀ q ∈ pairs, q.1 ≠ k) → nodes.lookup k = some n →
      (expandChildren nodes sel pairs).lookup k = some n := by
  intro pairs
  induction pairs with
  | nil => intro nodes k n _ _ h; exact h
  | cons pr rest ih =>
    intro nodes k n hks hkp h
    obtain ⟨nid, st⟩ := pr
    have h1 : (addChildNode nodes sel nid st).lookup k = some n := by
      rw [lookup_addChildNode_mem nodes sel nid st k n h, if_neg hks]
    exact ih (addChildNode nodes sel nid st) k n hks (fun q hq => hkp q (by simp [hq])) h1

lemma lookup_expandChildren_new (sel : String) :
    ∀ (pairs : List (String × String)) (nodes : List (String × Node)),
      sel ∈ nodes.map Prod.fst →
      (∀ q ∈ pairs, q.1 ∉ nodes.map Prod.fst) → (pairs.map Prod.fst).Nodup →
      ∀ nid st, (nid, st) ∈ pairs →
        (expandChildren nodes sel pairs).lookup nid = some (freshChildNode sel nid st) := by
  intro pairs
  induction pairs with
  | nil => intro nodes _ _ _ nid st h; simp at h
  | cons pr rest ih =>
    intro nodes hsel hfr hnd nid st hmem
    obtain ⟨nid0, st0⟩ := pr
    have hkeys := keys_addChildNode nodes sel nid0 st0
    rcases List.mem_cons.mp hmem with heq | hmem'
    · cases heq
      have hfresh : nid ∉ nodes.map Prod.fst := hfr (nid, st) (by simp)
      have h1 : (addChildNode nodes sel nid st).lookup nid =
          some (freshChildNode sel nid st) := lookup_addChildNode_new nodes sel nid st hfresh
      have hns : nid ≠ sel := fun h => hfresh (h ▸ hsel)
      refine lookup_expandChildren_preserved sel rest (addChildNode nodes sel nid st)
        nid _ hns ?_ h1
      intro q hq
      intro h
      have : nid ∈ rest.map Prod.fst := List.mem_map.mpr ⟨q, hq, h⟩
      exact (List.nodup_cons.mp (by simpa using hnd)).1 this
    · refine ih (addChildNode nodes sel nid0 st0) ?_ ?_ ?_ nid st hmem'
      · rw [hkeys]; exact List.mem_append_left _ hsel
      · intro q hq
        rw [hkeys]
        simp only [List.mem_append, List.mem_singleton]
        rintro (hm | hq1)
        · exact hfr q (by simp [hq]) hm
        · have : nid0 ∈ rest.map Prod.fst := List.mem_map.mpr ⟨q, hq, hq1⟩
          exact (List.nodup_cons.mp (by simpa using hnd)).1 this
      · exact (List.nodup_cons.mp (by simpa using hnd)).2

/-- C9: the Controller's seed establishes the tree-integrity invariant;
any sequence of expansions whose generated uuids are fresh preserves it
(unique ids, root present with empty parent and the only parent-less node,
every non-root node's id occurring exactly once in its parent's
`children`); each expansion stores, for every candidate step, a child node
`{visits=0, value=0, isTerminal=false, state=step, parent=selected}` under
its fresh id; and the invariant excludes cycles in the parent relation. -/
theorem expansion_tree_integrity :
    (∀ rootId summary, TreeInv rootId (seedNodes rootId summary)) ∧
    (∀ rootId (nodes : List (String × Node)) ops,
        TreeInv rootId nodes → FreshAlong nodes ops →
        TreeInv rootId (ops.foldl applyExpandOp nodes)) ∧
    (∀ (nodes : List (String × Node)) (sel : String) (pairs : List (String × String))
        (n : Node) (s : String),
        nodes.lookup sel = some n → n.state = some s → ¬(s = "" ∨ pairs = []) →
        (∀ q ∈ pairs, q.1 ∉ nodes.map Prod.fst) → (pairs.map Prod.fst).Nodup →
        ∀ nid st, (nid, st) ∈ pairs →
          (applyExpand nodes sel pairs).lookup nid = some (freshChildNode sel nid st)) ∧
    (∀ rootId (nodes : List (String × Node)), TreeInv rootId nodes →
        ∀ a, ¬ Relation.TransGen
          (fun x y => ∃ nx, nodes.lookup x = some nx ∧ nx.parent = some y) a a) := by
  refine ⟨seedNodes_inv, ?_, ?_, ?_⟩
  · intro rootId nodes ops hinv hfa
    exact foldl_applyExpandOp_inv rootId ops nodes hinv hfa
  · intro nodes sel pairs n s hl hs hguard hfr hnd nid st hmem
    have hsel : sel ∈ nodes.map Prod.fst :=
      (lookup_isSome_iff_mem_keys nodes sel).mp (by rw [hl]; rfl)
    have happ : applyExpand nodes sel pairs = expandChildren nodes sel pairs := by
      rw [applyExpand, hl]
      simp only [hs]
      rw [if_neg hguard]
    rw [happ]
    exact lookup_expandChildren_new sel pairs nodes hsel hfr hnd nid st hmem
  · intro rootId nodes hinv a htg
    obtain ⟨m, hm⟩ := hinv.acyclic
    have hdec : ∀ x y, (∃ nx, nodes.lookup x = some nx ∧ nx.parent = some y) → m y < m x := by
      rintro x y ⟨nx, hx, hpx⟩
      exact hm (x, nx) (mem_of_lookup_eq_some nodes x nx hx) y hpx
    have key : ∀ b, Relation.TransGen
        (fun x y => ∃ nx, nodes.lookup x = some nx ∧ nx.parent = some y) a b → m b < m a := by
      intro b h
      induction h with
      | single h1 => exact hdec _ _ h1
      | tail hab hbc ih => exact lt_trans (hdec _ _ hbc) ih
    exact absurd (key a htg) (lt_irrefl _)

/-- Witness for C9: seeding with root `root` and one expansion adding two
fresh children `a` and `b` keeps the invariant, and the new child `a` is
stored with the expected fresh-node fields. -/
theorem expansion_tree_integrity_witness :
    TreeInv "root"
        ([("root", [("a", "sA"), ("b", "sB")])].foldl applyExpandOp (seedNodes "root" "sum")) ∧
      (applyExpand (seedNodes "root" "sum") "root" [("a", "sA"), ("b", "sB")]).lookup "a" =
        some (freshChildNode "root" "a" "sA") := by
  constructor
  · exact expansion_tree_integrity.2.1 "root" (seedNodes "root" "sum")
      [("root", [("a", "sA"), ("b", "sB")])]
      (expansion_tree_integrity.1 "root" "sum")
      ⟨by decide, by decide, trivial⟩
  · exact expansion_tree_integrity.2.2.1 (seedNodes "root" "sum") "root"
      [("a", "sA"), ("b", "sB")]
      ⟨"root", none, [], 1, 0, some "sum", some false⟩ "sum"
      (by decide) (by decide) (by decide) (by decide) (by decide) "a" "sA" (by decide)

/-!
## Backpropagator

No backpropagation step exists under `src/` — the Controller and
`select_node.step.py` only subscribe to or mention
`mcts.backpropagation.completed` — so the phase is modelled from the
spec (§4.1 `pathToRoot`, §4.5 `backprop`).
-/

/-- Modelled from the spec: `pathToRoot(id)` of §4.1 (TreeStore), missing
from `src/` — the ordered id sequence from `id` up to the root following
`parent` links; the fuel `nodes.length` bounds the walk on malformed
trees (on `TreeInv` trees the parent chain strictly descends, so the root
is reached within the fuel). -/
def pathToRootGo (nodes : List (String × Node)) : ℕ → Option String → List String
  | _, none => []
  | 0, some _ => []
  | fuel + 1, some i =>
    match nodes.lookup i with
    | none => []
    | some n => i :: pathToRootGo nodes fuel n.parent

def pathToRoot (nodes : List (String × Node)) (i : String) : List String :=
  pathToRootGo nodes nodes.length (some i)

/-- Modelled from the spec: the backpropagation phase of §4.5, whose step
is missing from `src/` — for every node on
`pathToRoot(simulationResult.nodeId)` inclusive, `visits += 1` and
`value += simulationResult.value`; every other node is unchanged. -/
def bumpEntry (path : List String) (d : ℚ) (p : String × Node) : String × Node :=
  if p.1 ∈ path then
    (p.1, { p.2 with visits := p.2.visits + 1, value := p.2.value + d })
  else p

def backprop (nodes : List (String × Node)) (sr : SimulationResult) : List (String × Node) :=
  nodes.map (bumpEntry (pathToRoot nodes sr.nodeId) sr.value)

lemma bumpEntry_mk (path : List String) (d : ℚ) (k : String) (v : Node) :
    bumpEntry path d (k, v) =
      (k, if k ∈ path then { v with visits := v.visits + 1, value := v.value + d } else v) := by
  by_cases h : k ∈ path <;> simp [bumpEntry, h]

lemma lookup_map_bump (path : List String) (d : ℚ) :
    ∀ (nodes : List (String × Node)) (k : String) (n : Node), nodes.lookup k = some n →
      (nodes.map (bumpEntry path d)).lookup k
        = some (if k ∈ path then
            { n with visits := n.visits + 1, value := n.value + d } else n) := by
  intro nodes
  induction nodes with
  | nil => intro k n h; simp at h
  | cons p rest ih =>
    intro k n h
    obtain ⟨k0, v⟩ := p
    rw [List.lookup_cons] at h
    rw [List.map_cons, bumpEntry_mk, List.lookup_cons]
    by_cases hkk : k = k0
    · subst hkk
      simp only [beq_self_eq_true] at h
      obtain rfl : v = n := by simpa using h
      rw [beq_self_eq_true]
    · have hbeq : (k == k0) = false := beq_false_of_ne hkk
      rw [hbeq] at h
      rw [hbeq]
      exact ih k n h

lemma lookup_expandChildren_counters (sel : String) :
    ∀ (pairs : List (String × String)) (nodes : List (String × Node)) (k : String) (n : Node),
      nodes.lookup k = some n →
      ∃ n', (expandChildren nodes sel pairs).lookup k = some n' ∧
        n'.visits = n.visits ∧ n'.value = n.value := by
  intro pairs
  induction pairs with
  | nil => intro nodes k n h; exact ⟨n, h, rfl, rfl⟩
  | cons pr rest ih =>
    intro nodes k n h
    obtain ⟨nid, st⟩ := pr
    have h1 := lookup_addChildNode_mem nodes sel nid st k n h
    obtain ⟨n', hn', hv, hval⟩ :=
      ih (addChildNode nodes sel nid st) k _ h1
    refine ⟨n', hn', ?_, ?_⟩
    · rw [hv]; split <;> rfl
    · rw [hval]; split <;> rfl

/-- C1 (backprop modelled from the spec, the expansion phase from
`expand_node.step.py`): for every tree and every `SimulationResult` whose
`nodeId` is present, `backprop` bumps `visits` by exactly 1 and `value` by
exactly `sr.value` on every node of `pathToRoot sr.nodeId` (which contains
`sr.nodeId`), leaves every node off the path unchanged, and the expansion
phase — the only other phase that returns a tree — never changes any
existing node's `visits` or `value`. -/
theorem backprop_conservation (nodes : List (String × Node)) (sr : SimulationResult)
    (h : (nodes.lookup sr.nodeId).isSome = true) :
    sr.nodeId ∈ pathToRoot nodes sr.nodeId ∧
    (∀ k n, nodes.lookup k = some n →
      (backprop nodes sr).lookup k =
        some (if k ∈ pathToRoot nodes sr.nodeId then
          { n with visits := n.visits + 1, value := n.value + sr.value } else n)) ∧
    (∀ (sel : String) (pairs : List (String × String)) (k : String) (n : Node),
        nodes.lookup k = some n →
        ∃ n', (applyExpand nodes sel pairs).lookup k = some n' ∧
          n'.visits = n.visits ∧ n'.value = n.value) := by
  refine ⟨?_, ?_, ?_⟩
  · obtain ⟨n0, hn0⟩ := Option.isSome_iff_exists.mp h
    have hlen : ∃ L, nodes.length = L + 1 := by
      cases hn : nodes with
      | nil => rw [hn] at hn0; simp at hn0
      | cons a l => exact ⟨l.length, by simp [hn]⟩
    obtain ⟨L, hL⟩ := hlen
    rw [pathToRoot, hL]
    simp only [pathToRootGo, hn0]
    exact List.mem_cons_self _ _
  · intro k n hk
    rw [backprop, pathToRoot]
    exact lookup_map_bump (pathToRootGo nodes nodes.length (some sr.nodeId)) sr.value nodes k n hk
  · intro sel pairs k n hk
    rw [applyExpand]
    split
    · exact ⟨n, hk, rfl, rfl⟩
    · split
      · exact ⟨n, hk, rfl, rfl⟩
      · split
        · exact ⟨n, hk, rfl, rfl⟩
        · exact lookup_expandChildren_counters sel pairs nodes k n hk

/-- Witness for C1 on the two-node tree `r ← c` with simulation value
`1/2` at `c`: both nodes are on the path and get `visits + 1`,
`value + 1/2`. -/
theorem backprop_conservation_witness :
    "c" ∈ pathToRoot
        [("r", ⟨"r", none, ["c"], 1, 0, none, none⟩),
         ("c", ⟨"c", some "r", [], 0, 0, none, none⟩)] "c" ∧
    (∀ k n, List.lookup k
        [("r", (⟨"r", none, ["c"], 1, 0, none, none⟩ : Node)),
         ("c", ⟨"c", some "r", [], 0, 0, none, none⟩)] = some n →
      (backprop
        [("r", ⟨"r", none, ["c"], 1, 0, none, none⟩),
         ("c", ⟨"c", some "r", [], 0, 0, none, none⟩)]
        ⟨"c", 1/2, "e"⟩).lookup k =
        some (if k ∈ pathToRoot
            [("r", (⟨"r", none, ["c"], 1, 0, none, none⟩ : Node)),
             ("c", ⟨"c", some "r", [], 0, 0, none, none⟩)] "c" then
          { n with visits := n.visits + 1, value := n.value + (1/2 : ℚ) } else n)) ∧
    (∀ (sel : String) (pairs : List (String × String)) (k : String) (n : Node),
        List.lookup k
          [("r", (⟨"r", none, ["c"], 1, 0, none, none⟩ : Node)),
           ("c", ⟨"c", some "r", [], 0, 0, none, none⟩)] = some n →
        ∃ n', (applyExpand
            [("r", ⟨"r", none, ["c"], 1, 0, none, none⟩),
             ("c", ⟨"c", some "r", [], 0, 0, none, none⟩)] sel pairs).lookup k = some n' ∧
          n'.visits = n.visits ∧ n'.value = n.value) :=
  backprop_conservation
    [("r", ⟨"r", none, ["c"], 1, 0, none, none⟩),
     ("c", ⟨"c", some "r", [], 0, 0, none, none⟩)]
    ⟨"c", 1/2, "e"⟩ (by decide)

/-!
## Simulator (`simulate.step.py`)

Each handler is embedded as a pure function from its extracted input to
the list of events it emits; only the payload parts the claims speak about
(ids, simulation values, rationale strings) are carried on the events.
-/

/-- Events emitted by the Selector/Expander/Simulator steps. -/
inductive Emitted where
  | nodeSelected (selectedId : String)
  | reasoningCompleted (selectedNodeId : String) (reasoning : String)
  | reviewError (message : String)
  | simulationCompleted (nodeId : String) (value : ℚ) (explanation : String)
deriving Repr, DecidableEq

/-- The extracted input of the Simulate handler (`simulate.step.py`
lines 48-60): `root_id` is `None` when the key is absent. -/
structure SimulateInput where
  nodes : List (String × Node)
  root_id : Option String
  expanded_node_ids : List String
deriving Repr, DecidableEq

/-- `emit_fallback_result` (lines 238-298 of `simulate.step.py`): the
fallback `simulation_result` takes `node_ids[0]` when the id list is
non-empty and otherwise `root_id or 'fallback-node'` (Python truthiness:
`None` and `""` fall back), with the neutral value `0.5`. -/
def emit_fallback_result (rootId : Option String) (nodeIds : List String)
    (reason : String) : List Emitted :=
  let selected : String :=
    match nodeIds with
    | nid :: _ => nid
    | [] =>
      match rootId with
      | some r => if r = "" then "fallback-node" else r
      | none => "fallback-node"
  [.simulationCompleted selected (1/2) ("Fallback evaluation: " ++ reason)]

/-- Lines 101-123 of `simulate.step.py`: collect, in order, the states and
ids of the expanded nodes that are present in the map and have a truthy
`state`. -/
def validExpandedStates (nodes : List (String × Node)) : List String → List String × List String
  | [] => ([], [])
  | nid :: rest =>
    let acc := validExpandedStates nodes rest
    match nodes.lookup nid with
    | none => acc
    | some n =>
      match n.state with
      | none => acc
      | some s => if s = "" then acc else (s :: acc.1, nid :: acc.2)

/-- The Simulate handler (`simulate.step.py` lines 34-236), with the
Oracle call `evaluate_reasoning` passed in as a function (`.error` models
an exception). -/
def simulateHandler
    (evalReasoning : String → List String → List String → Except String SimulationResult)
    (input : SimulateInput) : List Emitted :=
  match input.root_id with
  | none =>
    emit_fallback_result none input.expanded_node_ids "Root node not found in tree"
  | some r =>
    match input.nodes.lookup r with
    | none =>
      emit_fallback_result (some r) input.expanded_node_ids "Root node not found in tree"
    | some rootNode =>
      if input.expanded_node_ids = [] then
        emit_fallback_result (some r) [r] "No expanded nodes to simulate"
      else
        match rootNode.state with
        | none =>
          emit_fallback_result (some r) input.expanded_node_ids
            "Root node has no state for simulation context"
        | some rootState =>
          if rootState = "" then
            emit_fallback_result (some r) input.expanded_node_ids
              "Root node has no state for simulation context"
          else
            let acc := validExpandedStates input.nodes input.expanded_node_ids
            if acc.1 = [] then
              emit_fallback_result (some r) [r] "No valid expanded states for simulation"
            else
              match evalReasoning rootState acc.1 acc.2 with
              | .ok sr => [.simulationCompleted sr.nodeId sr.value sr.explanation]
              | .error e =>
                match acc.2 with
                | vid :: _ =>
                  [.simulationCompleted vid (1/2) ("Fallback evaluation due to error: " ++ e)]
                | [] =>
                  [.simulationCompleted r (1/2)
                    "Fallback evaluation due to missing or invalid expanded nodes"]

/-- C7: whenever the Simulator receives an empty `expanded_node_ids` list
(and its input names a root id, non-empty or present in the map), it emits
exactly one `mcts.simulation.completed` event whose `simulation_result`
carries the root id and the neutral value `0.5 ∈ [0,1]`, so the pipeline
never stalls at the simulation phase. -/
theorem simulator_empty_candidates_fallback
    (evalReasoning : String → List String → List String → Except String SimulationResult)
    (input : SimulateInput) (r : String)
    (hroot : input.root_id = some r)
    (hr : r ≠ "" ∨ (input.nodes.lookup r).isSome = true)
    (hempty : input.expanded_node_ids = []) :
    (∃ explanation, simulateHandler evalReasoning input =
        [.simulationCompleted r (1/2) explanation]) ∧
      (0 : ℚ) ≤ 1/2 ∧ (1/2 : ℚ) ≤ 1 := by
  refine ⟨?_, by norm_num, by norm_num⟩
  cases hl : input.nodes.lookup r with
  | none =>
    have hne : r ≠ "" := by
      rcases hr with h | h
      · exact h
      · rw [hl] at h; simp at h
    exact ⟨"Fallback evaluation: Root node not found in tree", by
      simp [simulateHandler, hroot, hl, hempty, emit_fallback_result, hne]⟩
  | some rootNode =>
    exact ⟨"Fallback evaluation: No expanded nodes to simulate", by
      simp [simulateHandler, hroot, hl, hempty, emit_fallback_result]⟩

/-- Witness for C7: one root node, empty candidate list. -/
theorem simulator_empty_candidates_fallback_witness :
    (∃ explanation,
        simulateHandler (fun _ _ _ => .error "oracle down")
          ⟨[("r", ⟨"r", none, [], 1, 0, some "s", none⟩)], some "r", []⟩ =
          [.simulationCompleted "r" (1/2) explanation]) ∧
      (0 : ℚ) ≤ 1/2 ∧ (1/2 : ℚ) ≤ 1 :=
  simulator_empty_candidates_fallback (fun _ _ _ => .error "oracle down")
    ⟨[("r", ⟨"r", none, [], 1, 0, some "s", none⟩)], some "r", []⟩ "r"
    rfl (Or.inl (by decide)) rfl

/-!
## SelectNode handler (`select_node.step.py` lines 130-443)

`ctx.emit` failure is modelled by `emitFail : String → Bool` (whether
emitting on a topic raises); the repeated same-topic retries of the
source's nested `try/except` chains are collapsed, since a failing topic
fails at each attempt.
-/

/-- The extracted input of the SelectNode handler (lines 162-194 of
`select_node.step.py`): `topic` defaults to `""`, `nodes` to `{}`,
`root_id` to `None`, `current_node_id` to `root_id`,
`max_iterations` to 100, `current_iteration` to 0,
`exploration_constant` to 1.414 and `max_depth` to 10. -/
structure SelectStepInput where
  topic : String
  nodes : List (String × Node)
  root_id : Option String
  current_node_id : Option String
  max_iterations : Int
  current_iteration : Int
  exploration_constant : ℝ
  max_depth : Int

/-- `input_dict.get('current_node_id', root_id)` (line 184). -/
def resolvedCurrentId (input : SelectStepInput) : Option String :=
  match input.current_node_id with
  | some c => some c
  | none => input.root_id

/-- `generate_error_report` (lines 389-443 of `select_node.step.py`): the
report's `selected_node_id` is `input_dict.get('root_id', 'error-node')`
(so the literal `'error-node'` whenever the dict it was handed carries no
root id), the rationale is the fixed selection-error sentence, with the
error text appended when the dict carries one; `review.error` is emitted
only when emitting the report itself fails. -/
def generate_error_report_events (emitFail : String → Bool) (rootIdField : Option String)
    (errMsg : Option String) : List Emitted :=
  let nodeId := rootIdField.getD "error-node"
  let reasoning :=
    match errMsg with
    | some e =>
      "The code review process encountered an error during the selection phase of MCTS."
        ++ " Error: " ++ e
    | none =>
      "The code review process encountered an error during the selection phase of MCTS."
  if emitFail "code-review.reasoning.completed" = false then
    [.reasoningCompleted nodeId reasoning]
  else if emitFail "review.error" = false then
    [.reviewError "Failed to generate error report: emit failed"]
  else []

/-- `generate_final_report` (lines 445-664): emit the final report; if the
channel fails for `code-review.reasoning.completed` the retries fail too
and the handler falls back to `generate_error_report` on the full input
dict. -/
def generate_final_report_events (emitFail : String → Bool) (rootIdField : Option String)
    (selectedNodeId : String) (currentIteration : Int) : List Emitted :=
  if emitFail "code-review.reasoning.completed" = false then
    [.reasoningCompleted selectedNodeId
      ("Code review analysis completed after " ++ toString currentIteration ++
        " iterations. Selected best reasoning path.")]
  else
    generate_error_report_events emitFail rootIdField none

/-- The SelectNode handler (lines 130-387 of `select_node.step.py`):
topic filter, input validation (each failure routed through
`generate_error_report` — with the full input dict for the root/current
checks, and a synthesized error dict without a root id for the
empty-nodes check and the selection `except` branch), UCB1 selection,
then either the final report (at the iteration cap) or the
`mcts.node.selected` event. -/
noncomputable def selectNodeStepHandler (emitFail : String → Bool)
    (input : SelectStepInput) : List Emitted :=
  if input.topic ≠ "" ∧ input.topic ≠ "mcts.iteration.started" then []
  else if input.nodes = [] then
    generate_error_report_events emitFail none (some "Invalid nodes: dict")
  else if input.root_id = none ∨ input.root_id = some "" then
    generate_error_report_events emitFail input.root_id none
  else
    match resolvedCurrentId input with
    | none => generate_error_report_events emitFail input.root_id none
    | some cur =>
      if cur = "" ∨ (input.nodes.lookup cur).isSome = false then
        generate_error_report_events emitFail input.root_id none
      else
        match select_node_ucb1 input.nodes (input.root_id.getD "") cur
            input.exploration_constant input.max_depth 0 with
        | .error e => generate_error_report_events emitFail none (some e)
        | .ok selected =>
          if input.max_iterations ≤ input.current_iteration then
            generate_final_report_events emitFail input.root_id
              (finalNodeId input.nodes cur) input.current_iteration
          else
            if emitFail "mcts.node.selected" then
              generate_error_report_events emitFail none (some "emit failed")
            else
              [.nodeSelected selected.id]

/-- The `selected_node_id` the error report actually carries on each
validation-failure path of the handler. -/
def errorReportSelectedId (input : SelectStepInput) : String :=
  if input.nodes = [] then "error-node"
  else input.root_id.getD "error-node"

/-- The `NotFound`/`InvalidInput` conditions of the selection phase:
empty nodes map, missing/empty root id, or a missing/invalid current node
id. -/
def selectErrCond (input : SelectStepInput) : Prop :=
  input.nodes = [] ∨ input.root_id = none ∨ input.root_id = some "" ∨
    (match resolvedCurrentId input with
     | none => True
     | some cur => cur = "" ∨ (input.nodes.lookup cur).isSome = false)

/-- C6 (amended): on every `NotFound`/`InvalidInput` condition of the
selection phase the session still ends with exactly one
`code-review.reasoning.completed` event carrying an explanatory rationale,
whose selected node id is the input's root id when the input carries one
and the nodes map is non-empty, and the placeholder `'error-node'`
otherwise; `review.error` is emitted only when emitting that report itself
fails. -/
theorem select_error_paths_best_effort_report (emitFail : String → Bool)
    (input : SelectStepInput)
    (htopic : input.topic = "" ∨ input.topic = "mcts.iteration.started")
    (herr : selectErrCond input) :
    (emitFail "code-review.reasoning.completed" = false →
      ∃ reasoning, selectNodeStepHandler emitFail input =
        [.reasoningCompleted (errorReportSelectedId input) reasoning]) ∧
    (∀ m, .reviewError m ∈ selectNodeStepHandler emitFail input →
      emitFail "code-review.reasoning.completed" = true) := by
  have htopic' : ¬(input.topic ≠ "" ∧ input.topic ≠ "mcts.iteration.started") := by
    rcases htopic with h | h <;> simp [h]
  have hreport : ∃ rootIdField errMsg,
      selectNodeStepHandler emitFail input =
        generate_error_report_events emitFail rootIdField errMsg ∧
        rootIdField.getD "error-node" = errorReportSelectedId input := by
    rw [selectNodeStepHandler, if_neg htopic']
    by_cases hn : input.nodes = []
    · rw [if_pos hn]
      exact ⟨none, some "Invalid nodes: dict", rfl, by simp [errorReportSelectedId, hn]⟩
    · rw [if_neg hn]
      by_cases hroot : input.root_id = none ∨ input.root_id = some ""
      · rw [if_pos hroot]
        refine ⟨input.root_id, none, rfl, ?_⟩
        simp [errorReportSelectedId, hn]
      · rw [if_neg hroot]
        split
        · exact ⟨input.root_id, none, rfl, by simp [errorReportSelectedId, hn]⟩
        · next cur hres =>
          have hcur : cur = "" ∨ (input.nodes.lookup cur).isSome = false := by
            rcases herr with h | h | h | h
            · exact absurd h hn
            · exact absurd (Or.inl h) hroot
            · exact absurd (Or.inr h) hroot
            · rw [hres] at h
              exact h
          rw [if_pos hcur]
          exact ⟨input.root_id, none, rfl, by simp [errorReportSelectedId, hn]⟩
  obtain ⟨rootIdField, errMsg, hrw, hid⟩ := hreport
  constructor
  · intro hok
    rw [hrw]
    simp only [generate_error_report_events]
    rw [if_pos hok, hid]
    exact ⟨_, rfl⟩
  · intro m hm
    rw [hrw] at hm
    simp only [generate_error_report_events] at hm
    by_cases hok : emitFail "code-review.reasoning.completed" = false
    · rw [if_pos hok] at hm
      simp at hm
    · simpa using hok

/-- Witness for the amended C6: a valid root but a current node id absent
from the map; the report selects the root id `a`. -/
theorem select_error_paths_best_effort_report_witness :
    ((fun (_ : String) => false) "code-review.reasoning.completed" = false →
      ∃ reasoning, selectNodeStepHandler (fun _ => false)
          ⟨"", [("a", ⟨"a", none, [], 1, 0, some "s", none⟩)], some "a", some "zzz",
            100, 0, 0, 10⟩ =
        [.reasoningCompleted
          (errorReportSelectedId
            ⟨"", [("a", ⟨"a", none, [], 1, 0, some "s", none⟩)], some "a", some "zzz",
              100, 0, 0, 10⟩) reasoning]) ∧
    (∀ m, .reviewError m ∈ selectNodeStepHandler (fun _ => false)
        ⟨"", [("a", ⟨"a", none, [], 1, 0, some "s", none⟩)], some "a", some "zzz",
          100, 0, 0, 10⟩ →
      (fun (_ : String) => false) "code-review.reasoning.completed" = true) :=
  select_error_paths_best_effort_report (fun _ => false)
    ⟨"", [("a", ⟨"a", none, [], 1, 0, some "s", none⟩)], some "a", some "zzz", 100, 0, 0, 10⟩
    (Or.inl rfl)
    (Or.inr (Or.inr (Or.inr (Or.inr (by decide)))))

/-- Counterexample to C6 as stated: with a non-empty nodes map but a
missing root id, the single completed report names the placeholder
`'error-node'`, which is neither the root nor the last known current node
(it is not an id in the tree at all). -/
theorem select_error_report_not_root_counterexample :
    selectNodeStepHandler (fun _ => false)
        ⟨"", [("a", ⟨"a", none, [], 1, 0, some "s", none⟩)], none, none, 100, 0, 0, 10⟩ =
      [.reasoningCompleted "error-node"
        "The code review process encountered an error during the selection phase of MCTS."] ∧
      "error-node" ∉
        ([("a", (⟨"a", none, [], 1, 0, some "s", none⟩ : Node))].map Prod.fst) := by
  constructor
  · rw [selectNodeStepHandler]
    simp [generate_error_report_events]
  · decide

/-!
## Controller (`code_review/controller_step.py` and the
`code-review/controller_step.py` duplicate)

Both files subscribe to `review.requested` and
`mcts.backpropagation.completed` but their handler treats every inbound
message as a review request: lines 48-59 of each read
`req.requirements` / `req.repo_dir` (and `req.model_dump()`) before the
`try` block, so a payload without the review-request fields (a
backpropagation SearchState) raises and nothing is emitted.  The
repository `Commits.create` call and the Oracle's `evaluate_commits` are
passed in as `Except` values (`.error` models an exception); the
time-based `root-<timestamp>` id is passed in as `rootId`. -/

/-- `MCTSControllerState` of `controller_step.py` (lines 20-28). -/
structure MCTSControllerState where
  nodes : List (String × Node)
  root_id : String
  current_node_id : String
  current_iteration : Int
  max_iterations : Int
  exploration_constant : ℚ
  max_depth : Int
  output_url : Option String
deriving Repr, DecidableEq

inductive CtrlEmitted where
  | iterationStarted (st : MCTSControllerState)
  | iterationsCompleted (st : MCTSControllerState)
  | reviewError (message : String)
deriving Repr, DecidableEq

/-- An inbound message for the controller, all review-request fields
optional (a `mcts.backpropagation.completed` payload carries none of
`prompt`/`repo_dir`/`branch`/`requirements`).  `repo_dir` stands for the
dash variant's `repo_url` as well. -/
structure ControllerPayload where
  prompt : Option String
  repo_dir : Option String
  branch : Option String
  max_iterations : Int
  exploration_constant : ℚ
  max_depth : Int
  requirements : Option String
  output_url : Option String
deriving Repr, DecidableEq

/-- `Evaluation` of `steps/shared/models.py`, restricted to the two fields
the controller consumes (`score` and `summary`; `issues`/`issueSummary`
are only rendered into prompts). -/
structure Evaluation where
  score : ℚ
  summary : String
deriving Repr, DecidableEq

/-- Lines 101-110 of `controller_step.py`: the fresh `MCTSControllerState`
seeded with the root node (`visits=1, value=0, state=summary`). -/
def initState (rootId : String) (summary : String) (p : ControllerPayload) :
    MCTSControllerState :=
  { nodes := seedNodes rootId summary
    root_id := rootId
    current_node_id := rootId
    current_iteration := 0
    max_iterations := p.max_iterations
    exploration_constant := p.exploration_constant
    max_depth := p.max_depth
    output_url := p.output_url }

/-- The handler of `code_review/controller_step.py` (lines 46-137):
threshold `req.max_iterations == 0 or evaluation.score >= 0.9`
(finalize via `mcts.iterations.completed`), otherwise
`mcts.iteration.started`; exceptions inside the `try` emit
`review.error`; missing review-request fields raise before the `try`. -/
def controllerStepHandler (commits : Except String Unit) (evaluation : Except String Evaluation)
    (rootId : String) (p : ControllerPayload) : Except String (List CtrlEmitted) :=
  match p.prompt, p.repo_dir, p.branch, p.requirements with
  | some _, some _, some _, some _ =>
    .ok (match commits with
      | .error e => [.reviewError e]
      | .ok _ =>
        match evaluation with
        | .error e => [.reviewError ("Evaluation failed: " ++ e)]
        | .ok ev =>
          if p.max_iterations = 0 ∨ (9 : ℚ)/10 ≤ ev.score then
            [.iterationsCompleted (initState rootId ev.summary p)]
          else
            [.iterationStarted (initState rootId ev.summary p)])
  | _, _, _, _ => .error "AttributeError: missing review-request field"

/-- The handler of the `code-review/controller_step.py` duplicate
(lines 46-142): same shape but the threshold is
`evaluation.score > 0.9 or req.max_iterations == 0` — strict. -/
def controllerDashStepHandler (commits : Except String Unit)
    (evaluation : Except String Evaluation)
    (rootId : String) (p : ControllerPayload) : Except String (List CtrlEmitted) :=
  match p.prompt, p.repo_dir, p.branch, p.requirements with
  | some _, some _, some _, some _ =>
    .ok (match commits with
      | .error e => [.reviewError e]
      | .ok _ =>
        match evaluation with
        | .error e => [.reviewError e]
        | .ok ev =>
          if (9 : ℚ)/10 < ev.score ∨ p.max_iterations = 0 then
            [.iterationsCompleted (initState rootId ev.summary p)]
          else
            [.iterationStarted (initState rootId ev.summary p)])
  | _, _, _, _ => .error "AttributeError: missing review-request field"

/-- C3 (amended): on `review.requested` with a successful evaluation, the
`code_review` controller finalizes immediately — emitting the completed
state whose current node is the root, with no `iteration.started` — if and
only if `maxIterations == 0` or `score ≥ 0.9` (so exactly `0.9`
finalizes); the `code-review/controller_step.py` duplicate instead
requires `score > 0.9` or `maxIterations == 0`, so an initial score of
exactly `0.9` with `maxIterations > 0` emits `iteration.started` there. -/
theorem controller_score_threshold_variants :
    (∀ (rootId : String) (p : ControllerPayload) (ev : Evaluation)
        (a b c d : String),
        p.prompt = some a → p.repo_dir = some b → p.branch = some c →
        p.requirements = some d →
        controllerStepHandler (.ok ()) (.ok ev) rootId p =
          .ok (if p.max_iterations = 0 ∨ (9 : ℚ)/10 ≤ ev.score then
              [CtrlEmitted.iterationsCompleted (initState rootId ev.summary p)]
            else [CtrlEmitted.iterationStarted (initState rootId ev.summary p)])) ∧
    (∀ (rootId : String) (p : ControllerPayload) (ev : Evaluation)
        (a b c d : String),
        p.prompt = some a → p.repo_dir = some b → p.branch = some c →
        p.requirements = some d →
        controllerDashStepHandler (.ok ()) (.ok ev) rootId p =
          .ok (if (9 : ℚ)/10 < ev.score ∨ p.max_iterations = 0 then
              [CtrlEmitted.iterationsCompleted (initState rootId ev.summary p)]
            else [CtrlEmitted.iterationStarted (initState rootId ev.summary p)])) ∧
    (∀ rootId summary p, (initState rootId summary p).current_node_id = rootId ∧
        (initState rootId summary p).root_id = rootId ∧
        (initState rootId summary p).current_iteration = 0) := by
  refine ⟨?_, ?_, ?_⟩
  · intro rootId p ev a b c d ha hb hc hd
    rw [controllerStepHandler.eq_def, ha, hb, hc, hd]
  · intro rootId p ev a b c d ha hb hc hd
    rw [controllerDashStepHandler.eq_def, ha, hb, hc, hd]
  · intro rootId summary p
    exact ⟨rfl, rfl, rfl⟩

/-- Witness for the amended C3 at an initial score of exactly `0.9` with
`maxIterations = 100`. -/
theorem controller_score_threshold_variants_witness :
    controllerStepHandler (.ok ()) (.ok ⟨9/10, "sum"⟩) "root"
        ⟨some "p", some "/repo", some "main", 100, 7/5, 10, some "reqs", none⟩ =
      .ok (if (⟨some "p", some "/repo", some "main", 100, 7/5, 10, some "reqs",
            none⟩ : ControllerPayload).max_iterations = 0 ∨
          (9 : ℚ)/10 ≤ (⟨9/10, "sum"⟩ : Evaluation).score then
        [CtrlEmitted.iterationsCompleted (initState "root" "sum"
          ⟨some "p", some "/repo", some "main", 100, 7/5, 10, some "reqs", none⟩)]
      else [CtrlEmitted.iterationStarted (initState "root" "sum"
          ⟨some "p", some "/repo", some "main", 100, 7/5, 10, some "reqs", none⟩)]) :=
  controller_score_threshold_variants.1 "root"
    ⟨some "p", some "/repo", some "main", 100, 7/5, 10, some "reqs", none⟩
    ⟨9/10, "sum"⟩ "p" "/repo" "main" "reqs" rfl rfl rfl rfl

/-- Counterexample to C3 as stated: the cited
`code-review/controller_step.py` duplicate, at an initial score of exactly
`0.9` with `maxIterations = 100`, emits `mcts.iteration.started` instead
of finalizing. -/
theorem controller_dash_exact_nine_tenths_iterates_counterexample :
    controllerDashStepHandler (.ok ()) (.ok ⟨9/10, "sum"⟩) "root"
        ⟨some "p", some "/repo", some "main", 100, 7/5, 10, some "reqs", none⟩ =
      .ok [CtrlEmitted.iterationStarted (initState "root" "sum"
        ⟨some "p", some "/repo", some "main", 100, 7/5, 10, some "reqs", none⟩)] := by
  have hred : controllerDashStepHandler (.ok ()) (.ok ⟨9/10, "sum"⟩) "root"
      ⟨some "p", some "/repo", some "main", 100, 7/5, 10, some "reqs", none⟩ =
      .ok (if (9 : ℚ)/10 < (9 : ℚ)/10 ∨ (100 : ℤ) = 0 then
          [CtrlEmitted.iterationsCompleted (initState "root" "sum"
            ⟨some "p", some "/repo", some "main", 100, 7/5, 10, some "reqs", none⟩)]
        else [CtrlEmitted.iterationStarted (initState "root" "sum"
          ⟨some "p", some "/repo", some "main", 100, 7/5, 10, some "reqs", none⟩)]) := rfl
  rw [hred, if_neg (not_or.mpr ⟨lt_irrefl _, by norm_num⟩)]

/-- C2 (the code contradicts it): the controller subscribes to
`mcts.backpropagation.completed` but treats every message as a review
request — on a payload without the review-request fields (every
backpropagation SearchState) the handler raises before emitting anything,
and whenever it does emit `mcts.iteration.started` the carried
`current_iteration` is the freshly seeded `0`: no code under `src/`
increments `currentIteration` or re-emits the loop event. -/
theorem controller_backprop_payload_errors :
    (∀ (commits : Except String Unit) (evaluation : Except String Evaluation)
        (rootId : String) (p : ControllerPayload),
        p.requirements = none →
        controllerStepHandler commits evaluation rootId p =
          .error "AttributeError: missing review-request field") ∧
    (∀ (commits : Except String Unit) (evaluation : Except String Evaluation)
        (rootId : String) (p : ControllerPayload) (events : List CtrlEmitted)
        (st : MCTSControllerState),
        controllerStepHandler commits evaluation rootId p = .ok events →
        CtrlEmitted.iterationStarted st ∈ events → st.current_iteration = 0) := by
  constructor
  · intro commits evaluation rootId p hreq
    rw [controllerStepHandler.eq_def, hreq]
    cases hp : p.prompt <;> cases hr : p.repo_dir <;> cases hb : p.branch <;> rfl
  · intro commits evaluation rootId p events st hok hmem
    cases hp : p.prompt with
    | none =>
      rw [controllerStepHandler.eq_def, hp] at hok
      simp at hok
    | some a =>
      cases hr : p.repo_dir with
      | none =>
        rw [controllerStepHandler.eq_def, hp, hr] at hok
        simp at hok
      | some b =>
        cases hb : p.branch with
        | none =>
          rw [controllerStepHandler.eq_def, hp, hr, hb] at hok
          simp at hok
        | some c =>
          cases hq : p.requirements with
          | none =>
            rw [controllerStepHandler.eq_def, hp, hr, hb, hq] at hok
            simp at hok
          | some d =>
            rw [controllerStepHandler.eq_def, hp, hr, hb, hq] at hok
            cases commits with
            | error e =>
              have hev : [CtrlEmitted.reviewError e] = events := by simpa using hok
              subst hev
              simp at hmem
            | ok u =>
              cases evaluation with
              | error e =>
                have hev : [CtrlEmitted.reviewError ("Evaluation failed: " ++ e)] = events := by
                  simpa using hok
                subst hev
                simp at hmem
              | ok ev =>
                by_cases hcond : p.max_iterations = 0 ∨ (9 : ℚ)/10 ≤ ev.score
                · have hev : [CtrlEmitted.iterationsCompleted (initState rootId ev.summary p)]
                      = events := by
                    simpa [hcond] using hok
                  subst hev
                  simp at hmem
                · have hev : [CtrlEmitted.iterationStarted (initState rootId ev.summary p)]
                      = events := by
                    simpa [hcond] using hok
                  subst hev
                  simp only [List.mem_singleton, CtrlEmitted.iterationStarted.injEq] at hmem
                  rw [hmem]
                  rfl

/-- Witness for C2: a backpropagation-completion-shaped payload (no
`prompt`/`repo_dir`/`branch`/`requirements`) makes the controller raise,
and a genuine review request that starts iterating carries
`current_iteration = 0`. -/
theorem controller_backprop_payload_errors_witness :
    controllerStepHandler (.ok ()) (.ok ⟨1/2, "sum"⟩) "root"
        ⟨none, none, none, 2, 7/5, 10, none, none⟩ =
      .error "AttributeError: missing review-request field" ∧
    (initState "root" "sum"
        ⟨some "p", some "/repo", some "main", 100, 7/5, 10, some "reqs",
          none⟩).current_iteration = 0 := by
  constructor
  · exact controller_backprop_payload_errors.1 (.ok ()) (.ok ⟨1/2, "sum"⟩) "root"
      ⟨none, none, none, 2, 7/5, 10, none, none⟩ rfl
  · have hrun : controllerStepHandler (.ok ()) (.ok ⟨1/2, "sum"⟩) "root"
        ⟨some "p", some "/repo", some "main", 100, 7/5, 10, some "reqs", none⟩ =
        .ok [CtrlEmitted.iterationStarted (initState "root" "sum"
          ⟨some "p", some "/repo", some "main", 100, 7/5, 10, some "reqs", none⟩)] := by
      have hred : controllerStepHandler (.ok ()) (.ok ⟨1/2, "sum"⟩) "root"
          ⟨some "p", some "/repo", some "main", 100, 7/5, 10, some "reqs", none⟩ =
          .ok (if (100 : ℤ) = 0 ∨ (9 : ℚ)/10 ≤ (1 : ℚ)/2 then
              [CtrlEmitted.iterationsCompleted (initState "root" "sum"
                ⟨some "p", some "/repo", some "main", 100, 7/5, 10, some "reqs", none⟩)]
            else [CtrlEmitted.iterationStarted (initState "root" "sum"
              ⟨some "p", some "/repo", some "main", 100, 7/5, 10, some "reqs",
                none⟩)]) := rfl
      rw [hred, if_neg (not_or.mpr ⟨by norm_num, by norm_num⟩)]
    exact controller_backprop_payload_errors.2 (.ok ()) (.ok ⟨1/2, "sum"⟩) "root"
      ⟨some "p", some "/repo", some "main", 100, 7/5, 10, some "reqs", none⟩
      [CtrlEmitted.iterationStarted (initState "root" "sum"
        ⟨some "p", some "/repo", some "main", 100, 7/5, 10, some "reqs", none⟩)]
      (initState "root" "sum"
        ⟨some "p", some "/repo", some "main", 100, 7/5, 10, some "reqs", none⟩)
      hrun (List.mem_singleton.mpr rfl)

end CodeReview
